import Mathlib

/-!
# Time-based Unique Identifier (package `tuid`)

A shallow embedding of `tuid.go` and a verification of its conversions.

Conventions of the embedding:

* a `uint64` (`TUID`) is a `Nat` below `2 ^ 64`; every Go operation that can
  leave that range is followed by an explicit `% 2 ^ 64`;
* a `byte` is a `Nat` below `256`; a `[]byte` and a Go `string` (a byte
  sequence) are both `List Nat`;
* an `int64` is an `Int` in `[-2 ^ 63, 2 ^ 63)`;
* a Go call either returns or stops with a run-time panic, which `Run`
  records;
* the functions of the standard library that `tuid.go` calls
  (`encoding/hex`, `time`) are embedded next to it, statement by statement.
-/

namespace Tuid

/-! ## Machine arithmetic -/

/-- Conversion to `uint64`: the value modulo `2 ^ 64`. -/
def u64 (n : Nat) : Nat := n % 2 ^ 64

/-- Conversion to `byte`: the value modulo `256`. -/
def byte (n : Nat) : Nat := n % 256

/-- Left shift `a << k` on `uint64`. -/
def shl64 (a k : Nat) : Nat := (a <<< k) % 2 ^ 64

/-- Conversion `uint64(i)` of an `int64`: the two's complement bit pattern. -/
def ofInt64 (i : Int) : Nat := (i % 2 ^ 64).toNat

/-- Conversion `int64(v)` of a `uint64`: the two's complement reading. -/
def toInt64 (v : Nat) : Int :=
  if v % 2 ^ 64 < 2 ^ 63 then ((v % 2 ^ 64 : Nat) : Int) else ((v % 2 ^ 64 : Nat) : Int) - 2 ^ 64

/-- Conversion to `int64` of an integer: wrap into `[-2 ^ 63, 2 ^ 63)`. -/
def wrapInt64 (i : Int) : Int := (i + 2 ^ 63) % 2 ^ 64 - 2 ^ 63

/-! ## Errors and outcomes -/

/-- The name of a Go type, as the verb `%T` prints it. -/
abbrev TypeName : Type := String

/-- The errors the package can return. `ErrIncomplete` is the package's own
error; `ErrLength` and `InvalidByteError` are those of `encoding/hex`;
`cannotConvert` is the `fmt.Errorf` of `Scan`, carrying the `%T` type name. -/
inductive Error where
  | ErrIncomplete : Error
  | ErrLength : Error
  | InvalidByteError (b : Nat) : Error
  | cannotConvert (typeName : TypeName) : Error
  deriving DecidableEq, Repr

/-- The dynamic value handed to `Scan`: the three types of its type switch,
and `other` for a value of any other type, with the name `%T` prints. -/
inductive Src where
  | bytes (b : List Nat) : Src
  | string (s : List Nat) : Src
  | int64 (i : Int) : Src
  | other (typeName : TypeName) : Src
  deriving DecidableEq, Repr

/-- Outcome of running a Go function: it returns a value, or the run time
stops it with an `index out of range` panic. -/
inductive Run (α : Type) where
  | ret (a : α) : Run α
  | panic : Run α
  deriving DecidableEq, Repr

/-- Size represents the size of a TUID in bytes. -/
def Size : Nat := 8

/-! ## Byte conversions -/

/-- `FromBytes`: the pair `(TUID, error)`, with `none` for the `nil` error.
The slice is indexed only after its length is known to be `Size`. -/
def FromBytes (b : List Nat) : Nat × Option Error :=
  if b.length ≠ Size then (0, some Error.ErrIncomplete)
  else
    (u64 (b.getD 7 0) ||| shl64 (u64 (b.getD 6 0)) 8 ||| shl64 (u64 (b.getD 5 0)) 16 |||
      shl64 (u64 (b.getD 4 0)) 24 ||| shl64 (u64 (b.getD 3 0)) 32 |||
      shl64 (u64 (b.getD 2 0)) 40 ||| shl64 (u64 (b.getD 1 0)) 48 |||
      shl64 (u64 (b.getD 0 0)) 56, none)

/-- `TUID.Array`: the eight bytes of `v`, written one by one. -/
def Array (v : Nat) : List Nat :=
  [byte (v >>> 56), byte (v >>> 48), byte (v >>> 40), byte (v >>> 32),
   byte (v >>> 24), byte (v >>> 16), byte (v >>> 8), byte v]

/-- Builtin `copy(dst, src)`: overwrites the first `min (len dst) (len src)`
elements of `dst`. -/
def copy (dst src : List Nat) : List Nat :=
  src.take dst.length ++ dst.drop src.length

/-- `TUID.Bytes`: a fresh slice of `Size` zero bytes, filled from `v.Array()`. -/
def Bytes (v : Nat) : List Nat :=
  copy (List.replicate Size 0) (Array v)

/-! ## Package `encoding/hex` -/

/-- Text of an ASCII literal as a Go string: one byte per character. -/
def str (s : String) : List Nat := s.toList.map Char.toNat

/-- The constant `hextable = "0123456789abcdef"`. -/
def hextable : List Nat :=
  [48, 49, 50, 51, 52, 53, 54, 55, 56, 57, 97, 98, 99, 100, 101, 102]

/-- The constant `reverseHexTable`: the value of a hexadecimal digit in either
case, and `0xff` for every other byte. -/
def reverseHexTable (p : Nat) : Nat :=
  if 48 ≤ p ∧ p ≤ 57 then p - 48
  else if 97 ≤ p ∧ p ≤ 102 then p - 97 + 10
  else if 65 ≤ p ∧ p ≤ 70 then p - 65 + 10
  else 0xff

/-- The loop of `hex.Encode` on the elements of `src` not yet visited, `j`
being the write position. A write outside `dst` is a run-time panic.

    j := 0
    for _, v := range src {
        dst[j] = hextable[v>>4]
        dst[j+1] = hextable[v&0x0f]
        j += 2
    }
-/
def encodeLoop : List Nat → Nat → List Nat → Run (List Nat)
  | dst, _, [] => Run.ret dst
  | dst, j, v :: rest =>
    if j < dst.length then
      let dst1 := dst.set j (hextable.getD (byte v >>> 4) 0)
      if j + 1 < dst1.length then
        encodeLoop (dst1.set (j + 1) (hextable.getD (byte v &&& 0x0f) 0)) (j + 2) rest
      else Run.panic
    else Run.panic

/-- `hex.Encode(dst, src)`: the buffer after the call and the returned count. -/
def hexEncode (dst src : List Nat) : Run (List Nat × Nat) :=
  match encodeLoop dst 0 src with
  | Run.ret d => Run.ret (d, src.length * 2)
  | Run.panic => Run.panic

/-- `hex.EncodeToString(src)`. -/
def EncodeToString (src : List Nat) : Run (List Nat) :=
  match hexEncode (List.replicate (src.length * 2) 0) src with
  | Run.ret (d, _) => Run.ret d
  | Run.panic => Run.panic

/-- The loop of `hex.Decode` together with its odd-length tail, on the part
`src[j-1:]` of the input not yet read, `i` being the write position in `dst`.
Returns the buffer, the count and the error; a write outside `dst` is a
run-time panic.

    i, j := 0, 1
    for ; j < len(src); j += 2 {
        p := src[j-1]
        q := src[j]
        a := reverseHexTable[p]
        b := reverseHexTable[q]
        if a > 0x0f { return i, InvalidByteError(p) }
        if b > 0x0f { return i, InvalidByteError(q) }
        dst[i] = (a << 4) | b
        i++
    }
    if len(src)%2 == 1 {
        if reverseHexTable[src[j-1]] > 0x0f { return i, InvalidByteError(src[j-1]) }
        return i, ErrLength
    }
    return i, nil
-/
def decodeLoop : List Nat → Nat → List Nat → Run (List Nat × Nat × Option Error)
  | dst, i, [] => Run.ret (dst, i, none)
  | dst, i, [p] =>
    if reverseHexTable p > 0x0f then Run.ret (dst, i, some (Error.InvalidByteError p))
    else Run.ret (dst, i, some Error.ErrLength)
  | dst, i, p :: q :: rest =>
    if reverseHexTable p > 0x0f then Run.ret (dst, i, some (Error.InvalidByteError p))
    else if reverseHexTable q > 0x0f then Run.ret (dst, i, some (Error.InvalidByteError q))
    else if i < dst.length then
      decodeLoop (dst.set i (byte (reverseHexTable p <<< 4) ||| reverseHexTable q)) (i + 1) rest
    else Run.panic

/-- `hex.Decode(dst, src)`. -/
def hexDecode (dst src : List Nat) : Run (List Nat × Nat × Option Error) :=
  decodeLoop dst 0 src

/-! ## Text conversions -/

/-- `FromString`: decodes into a zeroed `[Size]byte` and hands the whole
array to `FromBytes`; the count returned by `hex.Decode` is dropped. -/
def FromString (s : List Nat) : Run (Nat × Option Error) :=
  match hexDecode (List.replicate Size 0) s with
  | Run.panic => Run.panic
  | Run.ret (_, _, some err) => Run.ret (0, some err)
  | Run.ret (b, _, none) => Run.ret (FromBytes b)

/-- The text `fmt.Errorf("tuid: cannot convert %T to TUID", src)` gives the
error of `Scan`, for a value whose type prints as `typeName`. -/
def cannotConvertText (typeName : TypeName) : TypeName :=
  "tuid: cannot convert " ++ typeName ++ " to TUID"

/-- `TUID.String`. -/
def String (v : Nat) : Run (List Nat) :=
  EncodeToString (Array v)

/-- `TUID.MarshalText`. -/
def MarshalText (v : Nat) : Run (List Nat × Option Error) :=
  match hexEncode (List.replicate (Size * 2) 0) (Array v) with
  | Run.ret (text, _) => Run.ret (text, none)
  | Run.panic => Run.panic

/-- `(*TUID).UnmarshalText`: `v` is the receiver before the call, the first
component of the result the receiver after it. -/
def UnmarshalText (v : Nat) (text : List Nat) : Run (Nat × Option Error) :=
  match hexDecode (List.replicate Size 0) text with
  | Run.panic => Run.panic
  | Run.ret (_, _, some err) => Run.ret (v, some err)
  | Run.ret (b, _, none) => Run.ret (FromBytes b)

/-- `TUID.MarshalBinary`. -/
def MarshalBinary (v : Nat) : List Nat × Option Error :=
  (Bytes v, none)

/-- `(*TUID).UnmarshalBinary`: the receiver after the call and the error. -/
def UnmarshalBinary (_v : Nat) (data : List Nat) : Nat × Option Error :=
  FromBytes data

/-! ## Package `database/sql` -/

/-- `(*TUID).Scan`: `v` is the receiver before the call, the first component
of the result the receiver after it. -/
def Scan (v : Nat) : Src → Run (Nat × Option Error)
  | Src.bytes b =>
    if b.length = Size then Run.ret (FromBytes b) else UnmarshalText v b
  | Src.string s => FromString s
  | Src.int64 i => Run.ret (ofInt64 i, none)
  | Src.other typeName => Run.ret (v, some (Error.cannotConvert typeName))

/-- `TUID.Value`: the driver value, an `int64`. -/
def Value (v : Nat) : Int × Option Error :=
  (toInt64 v, none)

/-! ## Package `time`

An instant is the number of nanoseconds since 1970-01-01T00:00:00 UTC; a
`time.Duration` is an `int64` count of nanoseconds. -/

/-- Leap years of the Gregorian calendar. -/
def isLeap (year : Nat) : Bool :=
  year % 4 = 0 ∧ (year % 100 ≠ 0 ∨ year % 400 = 0)

/-- The table `daysBefore`: days of a non-leap year before each month. -/
def daysBefore : List Nat :=
  [0, 31, 59, 90, 120, 151, 181, 212, 243, 273, 304, 334, 365]

/-- Leap days in the years `1 .. year - 1`. -/
def leapsBefore (year : Nat) : Nat :=
  (year - 1) / 4 - (year - 1) / 100 + (year - 1) / 400

/-- `time.Date(year, month, day, hour, min, sec, nsec, time.UTC)` for fields
in their normal ranges and a year from 1970 on. -/
def Date (year month day hour min sec nsec : Nat) : Int :=
  let d := 365 * (year - 1970) + (leapsBefore year - leapsBefore 1970) +
    daysBefore.getD (month - 1) 0 + (if isLeap year ∧ month ≥ 3 then 1 else 0) + (day - 1)
  (((d * 86400 + hour * 3600 + min * 60 + sec : Nat) : Int)) * 1000000000 + nsec

/-- The constant `time.Millisecond`, in nanoseconds. -/
def Millisecond : Int := 1000000

/-- The largest `time.Duration`. -/
def maxDuration : Int := 2 ^ 63 - 1

/-- The smallest `time.Duration`. -/
def minDuration : Int := -2 ^ 63

/-- `t.Add(d)`. -/
def Add (t d : Int) : Int := t + d

/-- `t.Sub(u)`: the difference, saturated to the range of a `Duration`. -/
def Sub (t u : Int) : Int :=
  if t - u > maxDuration then maxDuration
  else if t - u < minDuration then minDuration
  else t - u

/-- `t.Truncate(time.Millisecond)`: `t` rounded down to a whole millisecond. -/
def truncateMs (t : Int) : Int := t - t % 1000000

/-- epoch is the custom epoch (2018-01-01 00:00:00.0 UTC). -/
def epoch : Int := Date 2018 1 1 0 0 0 0

/-! ## Generation and timestamp -/

/-- `New`, as a function of the clock reading `now` and of the three bytes
`r0 r1 r2` that `rand.Read` stored in `r`. -/
def New (now : Int) (r0 r1 r2 : Nat) : Nat :=
  let v := shl64 (ofInt64 (Int.tdiv (Sub now epoch) 1000000)) (64 - 42)
  v ||| (u64 r0 ||| shl64 (u64 r1) 8 ||| shl64 (u64 (r2 &&& 0x3f)) 16)

/-- `TUID.Time`. -/
def Time (v : Nat) : Int :=
  Add epoch (wrapInt64 (toInt64 (v >>> (64 - 42)) * Millisecond))

/-! ## Vocabulary of the specification -/

/-- A byte that is a hexadecimal digit: `0-9`, `a-f` or `A-F`. -/
def isHexDigit (c : Nat) : Prop :=
  (48 ≤ c ∧ c ≤ 57) ∨ (97 ≤ c ∧ c ≤ 102) ∨ (65 ≤ c ∧ c ≤ 70)

instance (c : Nat) : Decidable (isHexDigit c) := by
  unfold isHexDigit; infer_instance

/-- A byte that is a lowercase hexadecimal digit: `0-9` or `a-f`. -/
def isLowerHexDigit (c : Nat) : Prop :=
  (48 ≤ c ∧ c ≤ 57) ∨ (97 ≤ c ∧ c ≤ 102)

instance (c : Nat) : Decidable (isLowerHexDigit c) := by
  unfold isLowerHexDigit; infer_instance

/-- The lowercase hexadecimal digit that writes the value `n < 16`. -/
def lowerHexDigit (n : Nat) : Nat :=
  if n < 10 then 48 + n else 97 + (n - 10)

/-- A call that returned without an error. -/
def succeeds (r : Run (Nat × Option Error)) : Prop :=
  ∃ v, r = Run.ret (v, none)

/-- A call that returned an error. -/
def fails (r : Run (Nat × Option Error)) : Prop :=
  ∃ v e, r = Run.ret (v, some e)

/-- Lexicographic byte order, the order of `bytes.Compare` and of `<` on Go
strings: `true` when the first sequence sorts strictly before the second. -/
def lexLt : List Nat → List Nat → Bool
  | [], [] => false
  | [], _ :: _ => true
  | _ :: _, [] => false
  | x :: xs, y :: ys => if x < y then true else if y < x then false else lexLt xs ys

/-- The lowercase form of a byte: `A-F` become `a-f`, every other byte stays. -/
def toLowerHex (c : Nat) : Nat :=
  if 65 ≤ c ∧ c ≤ 70 then c + 32 else c

/-! ## Arithmetic of the byte layout -/

theorem or_shl_eq_add (a b k : Nat) (ha : a < 2 ^ k) : a ||| b <<< k = b * 2 ^ k + a := by
  rw [Nat.shiftLeft_eq, Nat.or_comm, Nat.mul_comm b, ← Nat.mul_add_lt_is_or ha]

theorem u64_of_lt (n : Nat) (h : n < 2 ^ 64) : u64 n = n := by
  unfold u64; omega

theorem byte_lt (n : Nat) : byte n < 256 := by
  unfold byte; omega

theorem shl64_of_lt (a k : Nat) (h : a * 2 ^ k < 2 ^ 64) : shl64 a k = a * 2 ^ k := by
  unfold shl64
  rw [Nat.shiftLeft_eq]
  exact Nat.mod_eq_of_lt h

theorem pair_none_congr (x y : Nat) (h : x = y) :
    ((x, none) : Nat × Option Error) = (y, none) := by
  rw [h]

/-- `FromBytes` on eight bytes is the big-endian positional sum. -/
theorem fromBytes_sum (b0 b1 b2 b3 b4 b5 b6 b7 : Nat)
    (h0 : b0 < 256) (h1 : b1 < 256) (h2 : b2 < 256) (h3 : b3 < 256)
    (h4 : b4 < 256) (h5 : b5 < 256) (h6 : b6 < 256) (h7 : b7 < 256) :
    FromBytes [b0, b1, b2, b3, b4, b5, b6, b7] =
      (b0 * 2 ^ 56 + b1 * 2 ^ 48 + b2 * 2 ^ 40 + b3 * 2 ^ 32 + b4 * 2 ^ 24 + b5 * 2 ^ 16 +
        b6 * 2 ^ 8 + b7, none) := by
  have e7 : u64 b7 = b7 := u64_of_lt _ (by omega)
  have e6 : shl64 (u64 b6) 8 = b6 * 2 ^ 8 := by
    rw [u64_of_lt _ (by omega), shl64_of_lt _ _ (by omega)]
  have e5 : shl64 (u64 b5) 16 = b5 * 2 ^ 16 := by
    rw [u64_of_lt _ (by omega), shl64_of_lt _ _ (by omega)]
  have e4 : shl64 (u64 b4) 24 = b4 * 2 ^ 24 := by
    rw [u64_of_lt _ (by omega), shl64_of_lt _ _ (by omega)]
  have e3 : shl64 (u64 b3) 32 = b3 * 2 ^ 32 := by
    rw [u64_of_lt _ (by omega), shl64_of_lt _ _ (by omega)]
  have e2 : shl64 (u64 b2) 40 = b2 * 2 ^ 40 := by
    rw [u64_of_lt _ (by omega), shl64_of_lt _ _ (by omega)]
  have e1 : shl64 (u64 b1) 48 = b1 * 2 ^ 48 := by
    rw [u64_of_lt _ (by omega), shl64_of_lt _ _ (by omega)]
  have e0 : shl64 (u64 b0) 56 = b0 * 2 ^ 56 := by
    rw [u64_of_lt _ (by omega), shl64_of_lt _ _ (by omega)]
  simp only [FromBytes, Size, List.length_cons, List.length_nil, List.getD_cons_succ,
    List.getD_cons_zero, ne_eq, not_true_eq_false, if_false, e0, e1, e2, e3, e4, e5, e6, e7]
  simp only [← Nat.shiftLeft_eq]
  rw [or_shl_eq_add _ _ 8 (by omega), or_shl_eq_add _ _ 16 (by omega),
    or_shl_eq_add _ _ 24 (by omega), or_shl_eq_add _ _ 32 (by omega),
    or_shl_eq_add _ _ 40 (by omega), or_shl_eq_add _ _ 48 (by omega),
    or_shl_eq_add _ _ 56 (by omega)]
  apply pair_none_congr
  omega

/-- The bytes of `Array` add up, by position, to the identifier. -/
theorem array_sum (v : Nat) (hv : v < 2 ^ 64) :
    byte (v >>> 56) * 2 ^ 56 + byte (v >>> 48) * 2 ^ 48 + byte (v >>> 40) * 2 ^ 40 +
    byte (v >>> 32) * 2 ^ 32 + byte (v >>> 24) * 2 ^ 24 + byte (v >>> 16) * 2 ^ 16 +
    byte (v >>> 8) * 2 ^ 8 + byte v = v := by
  simp only [byte, Nat.shiftRight_eq_div_pow]
  omega

theorem fromBytes_array (v : Nat) (hv : v < 2 ^ 64) : FromBytes (Array v) = (v, none) := by
  unfold Array
  rw [fromBytes_sum _ _ _ _ _ _ _ _ (byte_lt _) (byte_lt _) (byte_lt _) (byte_lt _)
    (byte_lt _) (byte_lt _) (byte_lt _) (byte_lt _)]
  exact pair_none_congr _ _ (array_sum v hv)

theorem bytes_eq_array (v : Nat) : Bytes v = Array v := rfl

/-- A list of length eight is eight elements. -/
theorem length_eight (b : List Nat) (h : b.length = 8) :
    ∃ b0 b1 b2 b3 b4 b5 b6 b7, b = [b0, b1, b2, b3, b4, b5, b6, b7] := by
  match b, h with
  | [b0, b1, b2, b3, b4, b5, b6, b7], _ => exact ⟨b0, b1, b2, b3, b4, b5, b6, b7, rfl⟩

theorem array_of_sum (b0 b1 b2 b3 b4 b5 b6 b7 : Nat)
    (h0 : b0 < 256) (h1 : b1 < 256) (h2 : b2 < 256) (h3 : b3 < 256)
    (h4 : b4 < 256) (h5 : b5 < 256) (h6 : b6 < 256) (h7 : b7 < 256) :
    Array (b0 * 2 ^ 56 + b1 * 2 ^ 48 + b2 * 2 ^ 40 + b3 * 2 ^ 32 + b4 * 2 ^ 24 + b5 * 2 ^ 16 +
        b6 * 2 ^ 8 + b7) = [b0, b1, b2, b3, b4, b5, b6, b7] := by
  simp only [Array, byte, Nat.shiftRight_eq_div_pow]
  have e0 : (b0 * 2 ^ 56 + b1 * 2 ^ 48 + b2 * 2 ^ 40 + b3 * 2 ^ 32 + b4 * 2 ^ 24 + b5 * 2 ^ 16 +
        b6 * 2 ^ 8 + b7) / 2 ^ 56 % 256 = b0 := by omega
  have e1 : (b0 * 2 ^ 56 + b1 * 2 ^ 48 + b2 * 2 ^ 40 + b3 * 2 ^ 32 + b4 * 2 ^ 24 + b5 * 2 ^ 16 +
        b6 * 2 ^ 8 + b7) / 2 ^ 48 % 256 = b1 := by omega
  have e2 : (b0 * 2 ^ 56 + b1 * 2 ^ 48 + b2 * 2 ^ 40 + b3 * 2 ^ 32 + b4 * 2 ^ 24 + b5 * 2 ^ 16 +
        b6 * 2 ^ 8 + b7) / 2 ^ 40 % 256 = b2 := by omega
  have e3 : (b0 * 2 ^ 56 + b1 * 2 ^ 48 + b2 * 2 ^ 40 + b3 * 2 ^ 32 + b4 * 2 ^ 24 + b5 * 2 ^ 16 +
        b6 * 2 ^ 8 + b7) / 2 ^ 32 % 256 = b3 := by omega
  have e4 : (b0 * 2 ^ 56 + b1 * 2 ^ 48 + b2 * 2 ^ 40 + b3 * 2 ^ 32 + b4 * 2 ^ 24 + b5 * 2 ^ 16 +
        b6 * 2 ^ 8 + b7) / 2 ^ 24 % 256 = b4 := by omega
  have e5 : (b0 * 2 ^ 56 + b1 * 2 ^ 48 + b2 * 2 ^ 40 + b3 * 2 ^ 32 + b4 * 2 ^ 24 + b5 * 2 ^ 16 +
        b6 * 2 ^ 8 + b7) / 2 ^ 16 % 256 = b5 := by omega
  have e6 : (b0 * 2 ^ 56 + b1 * 2 ^ 48 + b2 * 2 ^ 40 + b3 * 2 ^ 32 + b4 * 2 ^ 24 + b5 * 2 ^ 16 +
        b6 * 2 ^ 8 + b7) / 2 ^ 8 % 256 = b6 := by omega
  have e7 : (b0 * 2 ^ 56 + b1 * 2 ^ 48 + b2 * 2 ^ 40 + b3 * 2 ^ 32 + b4 * 2 ^ 24 + b5 * 2 ^ 16 +
        b6 * 2 ^ 8 + b7) % 256 = b7 := by omega
  rw [e0, e1, e2, e3, e4, e5, e6, e7]

theorem sum_lt (b0 b1 b2 b3 b4 b5 b6 b7 : Nat)
    (h0 : b0 < 256) (h1 : b1 < 256) (h2 : b2 < 256) (h3 : b3 < 256)
    (h4 : b4 < 256) (h5 : b5 < 256) (h6 : b6 < 256) (h7 : b7 < 256) :
    b0 * 2 ^ 56 + b1 * 2 ^ 48 + b2 * 2 ^ 40 + b3 * 2 ^ 32 + b4 * 2 ^ 24 + b5 * 2 ^ 16 +
        b6 * 2 ^ 8 + b7 < 2 ^ 64 := by
  omega

/-- Decoding eight bytes gives a 64-bit value whose `Array` is those bytes. -/
theorem fromBytes_inv (b : List Nat) (hlen : b.length = 8) (hb : ∀ x ∈ b, x < 256) :
    ∃ w, FromBytes b = (w, none) ∧ w < 2 ^ 64 ∧ Array w = b := by
  obtain ⟨b0, b1, b2, b3, b4, b5, b6, b7, rfl⟩ := length_eight b hlen
  have h0 := hb b0 (by simp)
  have h1 := hb b1 (by simp)
  have h2 := hb b2 (by simp)
  have h3 := hb b3 (by simp)
  have h4 := hb b4 (by simp)
  have h5 := hb b5 (by simp)
  have h6 := hb b6 (by simp)
  have h7 := hb b7 (by simp)
  exact ⟨_, fromBytes_sum b0 b1 b2 b3 b4 b5 b6 b7 h0 h1 h2 h3 h4 h5 h6 h7,
    sum_lt b0 b1 b2 b3 b4 b5 b6 b7 h0 h1 h2 h3 h4 h5 h6 h7,
    array_of_sum b0 b1 b2 b3 b4 b5 b6 b7 h0 h1 h2 h3 h4 h5 h6 h7⟩

/-! ## Hexadecimal digits -/

theorem reverseHexTable_le_iff (c : Nat) : reverseHexTable c ≤ 15 ↔ isHexDigit c := by
  unfold reverseHexTable isHexDigit
  split_ifs <;> omega

theorem hextable_getD (n : Nat) (h : n < 16) : hextable.getD n 0 = lowerHexDigit n := by
  unfold lowerHexDigit hextable
  interval_cases n <;> rfl

theorem lowerHexDigit_isLower (n : Nat) (h : n < 16) : isLowerHexDigit (lowerHexDigit n) := by
  unfold lowerHexDigit isLowerHexDigit
  split_ifs <;> omega

theorem reverseHexTable_lowerHexDigit (n : Nat) (h : n < 16) :
    reverseHexTable (lowerHexDigit n) = n := by
  unfold reverseHexTable lowerHexDigit
  split_ifs <;> omega

theorem byte_shr4 (x : Nat) : byte x >>> 4 = byte x / 16 := by
  rw [Nat.shiftRight_eq_div_pow]

theorem byte_and15 (x : Nat) : byte x &&& 0x0f = byte x % 16 := by
  have h := Nat.and_pow_two_sub_one_eq_mod (byte x) 4
  simpa using h

/-- Joining the two hexadecimal digits of a byte gives the byte back. -/
theorem join_nibbles (x : Nat) (hx : x < 256) : byte ((x / 16) <<< 4) ||| (x % 16) = x := by
  have e : byte ((x / 16) <<< 4) = (x / 16) * 2 ^ 4 := by
    unfold byte; rw [Nat.shiftLeft_eq]; omega
  rw [e, Nat.or_comm, ← Nat.shiftLeft_eq, or_shl_eq_add _ _ 4 (by omega)]
  omega

/-- One turn of the decoding loop on the two digits of a byte stores the byte. -/
theorem decodeLoop_pair (dst : List Nat) (i x : Nat) (rest : List Nat)
    (hx : x < 256) (hi : i < dst.length) :
    decodeLoop dst i (lowerHexDigit (x / 16) :: lowerHexDigit (x % 16) :: rest) =
      decodeLoop (dst.set i x) (i + 1) rest := by
  have h1 : reverseHexTable (lowerHexDigit (x / 16)) = x / 16 :=
    reverseHexTable_lowerHexDigit _ (by omega)
  have h2 : reverseHexTable (lowerHexDigit (x % 16)) = x % 16 :=
    reverseHexTable_lowerHexDigit _ (by omega)
  rw [decodeLoop, h1, h2, join_nibbles x hx]
  have g1 : ¬ x / 16 > 0x0f := by omega
  have g2 : ¬ x % 16 > 0x0f := by omega
  simp only [g1, g2, hi, if_true, if_false]

/-- The sixteen characters `String` writes. -/
theorem string_eq (v : Nat) :
    String v = Run.ret
      [lowerHexDigit (byte (v >>> 56) / 16), lowerHexDigit (byte (v >>> 56) % 16),
       lowerHexDigit (byte (v >>> 48) / 16), lowerHexDigit (byte (v >>> 48) % 16),
       lowerHexDigit (byte (v >>> 40) / 16), lowerHexDigit (byte (v >>> 40) % 16),
       lowerHexDigit (byte (v >>> 32) / 16), lowerHexDigit (byte (v >>> 32) % 16),
       lowerHexDigit (byte (v >>> 24) / 16), lowerHexDigit (byte (v >>> 24) % 16),
       lowerHexDigit (byte (v >>> 16) / 16), lowerHexDigit (byte (v >>> 16) % 16),
       lowerHexDigit (byte (v >>> 8) / 16), lowerHexDigit (byte (v >>> 8) % 16),
       lowerHexDigit (byte v / 16), lowerHexDigit (byte v % 16)] := by
  have hb : ∀ x, byte (byte x) = byte x := by intro x; unfold byte; omega
  have hd : ∀ x, (hextable[byte x / 16]?).getD 0 = lowerHexDigit (byte x / 16) := by
    intro x
    rw [← List.getD_eq_getElem?_getD]
    exact hextable_getD _ (by have := byte_lt x; omega)
  have hm : ∀ x, (hextable[byte x % 16]?).getD 0 = lowerHexDigit (byte x % 16) := by
    intro x
    rw [← List.getD_eq_getElem?_getD]
    exact hextable_getD _ (by omega)
  simp [String, EncodeToString, hexEncode, encodeLoop, Array, hb, byte_shr4, byte_and15, hd, hm]

/-- Decoding the text of eight bytes into the zeroed array gives the bytes. -/
theorem hexDecode_pairs (a0 a1 a2 a3 a4 a5 a6 a7 : Nat)
    (h0 : a0 < 256) (h1 : a1 < 256) (h2 : a2 < 256) (h3 : a3 < 256)
    (h4 : a4 < 256) (h5 : a5 < 256) (h6 : a6 < 256) (h7 : a7 < 256) :
    hexDecode (List.replicate Size 0)
      [lowerHexDigit (a0 / 16), lowerHexDigit (a0 % 16),
       lowerHexDigit (a1 / 16), lowerHexDigit (a1 % 16),
       lowerHexDigit (a2 / 16), lowerHexDigit (a2 % 16),
       lowerHexDigit (a3 / 16), lowerHexDigit (a3 % 16),
       lowerHexDigit (a4 / 16), lowerHexDigit (a4 % 16),
       lowerHexDigit (a5 / 16), lowerHexDigit (a5 % 16),
       lowerHexDigit (a6 / 16), lowerHexDigit (a6 % 16),
       lowerHexDigit (a7 / 16), lowerHexDigit (a7 % 16)] =
      Run.ret ([a0, a1, a2, a3, a4, a5, a6, a7], 8, none) := by
  unfold hexDecode
  rw [decodeLoop_pair _ _ _ _ h0 (by simp [Size]), decodeLoop_pair _ _ _ _ h1 (by simp [Size]),
    decodeLoop_pair _ _ _ _ h2 (by simp [Size]), decodeLoop_pair _ _ _ _ h3 (by simp [Size]),
    decodeLoop_pair _ _ _ _ h4 (by simp [Size]), decodeLoop_pair _ _ _ _ h5 (by simp [Size]),
    decodeLoop_pair _ _ _ _ h6 (by simp [Size]), decodeLoop_pair _ _ _ _ h7 (by simp [Size])]
  rfl

/-- `FromString` inverts `String`. -/
theorem fromString_string (v : Nat) (hv : v < 2 ^ 64) :
    ∃ s, String v = Run.ret s ∧ FromString s = Run.ret (v, none) := by
  refine ⟨_, string_eq v, ?_⟩
  unfold FromString
  rw [hexDecode_pairs _ _ _ _ _ _ _ _ (byte_lt _) (byte_lt _) (byte_lt _) (byte_lt _)
    (byte_lt _) (byte_lt _) (byte_lt _) (byte_lt _)]
  exact congrArg Run.ret (fromBytes_array v hv)

/-! ## The decoding loop in general -/

theorem fromBytes_of_length (d : List Nat) (h : d.length = 8) :
    FromBytes d = ((FromBytes d).1, none) := by
  simp [FromBytes, Size, h]

/-- When the buffer has room for every pair of the input, `hex.Decode` returns:
with a nil error exactly when the input has even length and only hexadecimal
digits, and with a buffer of the length it was given. -/
theorem decodeLoop_total : ∀ (src dst : List Nat) (i : Nat),
    i + src.length / 2 ≤ dst.length →
    ∃ d n e, decodeLoop dst i src = Run.ret (d, n, e) ∧ d.length = dst.length ∧
      (e = none ↔ (src.length % 2 = 0 ∧ ∀ c ∈ src, isHexDigit c))
  | [], dst, i, _ => ⟨dst, i, none, by simp [decodeLoop]⟩
  | [p], dst, i, _ => by
    by_cases hp : reverseHexTable p > 0x0f
    · exact ⟨dst, i, some (Error.InvalidByteError p), by simp [decodeLoop, hp]⟩
    · exact ⟨dst, i, some Error.ErrLength, by simp [decodeLoop, hp]⟩
  | p :: q :: rest, dst, i, h => by
    have hlen : (p :: q :: rest).length = rest.length + 2 := rfl
    by_cases hp : reverseHexTable p > 0x0f
    · refine ⟨dst, i, some (Error.InvalidByteError p), by simp [decodeLoop, hp], rfl, ?_⟩
      have hnp : ¬ isHexDigit p := by
        rw [← reverseHexTable_le_iff]; omega
      constructor
      · intro he; cases he
      · intro hall; exact absurd (hall.2 p (by simp)) hnp
    · by_cases hq : reverseHexTable q > 0x0f
      · refine ⟨dst, i, some (Error.InvalidByteError q), by simp [decodeLoop, hp, hq], rfl, ?_⟩
        have hnq : ¬ isHexDigit q := by
          rw [← reverseHexTable_le_iff]; omega
        constructor
        · intro he; cases he
        · intro hall; exact absurd (hall.2 q (by simp)) hnq
      · have hi : i < dst.length := by rw [hlen] at h; omega
        obtain ⟨d, n, e, h1, h2, h3⟩ := decodeLoop_total rest
          (dst.set i (byte (reverseHexTable p <<< 4) ||| reverseHexTable q)) (i + 1)
          (by rw [List.length_set]; rw [hlen] at h; omega)
        refine ⟨d, n, e, by simp only [decodeLoop, hp, hq, hi, if_true, if_false]; exact h1,
          by rw [h2, List.length_set], ?_⟩
        have hhp : isHexDigit p := by rw [← reverseHexTable_le_iff]; omega
        have hhq : isHexDigit q := by rw [← reverseHexTable_le_iff]; omega
        rw [h3, hlen]
        constructor
        · rintro ⟨he, hall⟩
          refine ⟨by omega, ?_⟩
          intro c hc
          simp only [List.mem_cons] at hc
          rcases hc with rfl | rfl | hc
          · exact hhp
          · exact hhq
          · exact hall c hc
        · rintro ⟨he, hall⟩
          exact ⟨by omega, fun c hc => hall c (by simp [hc])⟩

/-- A text of at most seventeen bytes never makes `FromString` panic; it
succeeds exactly on an even number of hexadecimal digits. -/
theorem fromString_total (s : List Nat) (hlen : s.length ≤ 17) :
    (succeeds (FromString s) ↔ (s.length % 2 = 0 ∧ ∀ c ∈ s, isHexDigit c)) ∧
      (¬ (s.length % 2 = 0 ∧ ∀ c ∈ s, isHexDigit c) → ∃ e, FromString s = Run.ret (0, some e)) := by
  obtain ⟨d, n, e, h1, h2, h3⟩ := decodeLoop_total s (List.replicate Size 0) 0
    (by simp [Size]; omega)
  have hd : d.length = 8 := by rw [h2]; simp [Size]
  unfold succeeds FromString hexDecode
  rw [h1]
  cases e with
  | none =>
    have hall := h3.mp rfl
    refine ⟨⟨fun _ => hall, fun _ => ⟨(FromBytes d).1, ?_⟩⟩, fun hn => absurd hall hn⟩
    exact congrArg Run.ret (fromBytes_of_length d hd)
  | some err =>
    have hn : ¬ (s.length % 2 = 0 ∧ ∀ c ∈ s, isHexDigit c) := by
      intro hall; have := h3.mpr hall; cases this
    refine ⟨⟨?_, fun hall => absurd hall hn⟩, fun _ => ⟨err, rfl⟩⟩
    rintro ⟨v, hv⟩
    simp at hv

/-! ## Timestamps -/

theorem epoch_eq : epoch = 1514764800000000000 := by decide

/-- The duration `Time` adds to the epoch is the millisecond count times one
million: the conversion to `int64` and the product stay in range. -/
theorem time_eq (v : Nat) (hv : v < 2 ^ 64) :
    Time v = epoch + ((v / 2 ^ 22 : Nat) : Int) * 1000000 := by
  have hx : v / 2 ^ 22 < 2 ^ 42 := by omega
  unfold Time Add wrapInt64 toInt64 Millisecond
  rw [Nat.shiftRight_eq_div_pow]
  have e : (64 - 42 : Nat) = 22 := rfl
  rw [e]
  generalize v / 2 ^ 22 = x at hx
  have h1 : x % 2 ^ 64 = x := Nat.mod_eq_of_lt (by omega)
  rw [h1]
  have h2 : x < 2 ^ 63 := by omega
  rw [if_pos h2]
  omega

/-- The random bits `New` adds are below `2 ^ 22`. -/
theorem new_random_part (r0 r1 r2 : Nat) (h0 : r0 < 256) (h1 : r1 < 256) :
    u64 r0 ||| shl64 (u64 r1) 8 ||| shl64 (u64 (r2 &&& 0x3f)) 16 =
      (r2 % 64) * 2 ^ 16 + r1 * 2 ^ 8 + r0 := by
  have hand : r2 &&& 0x3f = r2 % 64 := by
    have h := Nat.and_pow_two_sub_one_eq_mod r2 6
    simpa using h
  rw [hand, u64_of_lt r0 (by omega), u64_of_lt r1 (by omega), u64_of_lt (r2 % 64) (by omega),
    shl64_of_lt _ _ (by omega), shl64_of_lt _ _ (by omega)]
  simp only [← Nat.shiftLeft_eq]
  rw [or_shl_eq_add _ _ 8 (by omega), or_shl_eq_add _ _ 16 (by omega)]
  omega

/-- The identifier `New` builds at a clock reading `m` whole milliseconds
after the epoch. -/
theorem new_eq (now : Int) (m r0 r1 r2 : Nat) (hm : m < 2 ^ 42)
    (hlo : epoch + (m : Int) * 1000000 ≤ now) (hhi : now < epoch + ((m : Int) + 1) * 1000000)
    (h0 : r0 < 256) (h1 : r1 < 256) :
    New now r0 r1 r2 = m * 2 ^ 22 + (r2 % 64) * 2 ^ 16 + r1 * 2 ^ 8 + r0 := by
  unfold New
  rw [new_random_part r0 r1 r2 h0 h1]
  have hsub : Sub now epoch = now - epoch := by
    unfold Sub maxDuration minDuration
    rw [if_neg (by omega), if_neg (by omega)]
  have hdiv : Int.tdiv (Sub now epoch) 1000000 = (m : Int) := by
    rw [hsub, Int.tdiv_eq_ediv (by omega) (by omega)]
    omega
  have hof : ofInt64 (m : Int) = m := by
    unfold ofInt64
    omega
  have e : (64 - 42 : Nat) = 22 := rfl
  rw [hdiv, hof, e, shl64_of_lt _ _ (by omega)]
  have hr : (r2 % 64) * 2 ^ 16 + r1 * 2 ^ 8 + r0 < 2 ^ 22 := by omega
  rw [Nat.mul_comm m, ← Nat.mul_add_lt_is_or hr]
  omega

/-! ## Byte conversions -/

/-- C1: `Array` (and `Bytes`) and `FromBytes` are mutually inverse. For every
64-bit identifier `v`, `FromBytes(v.Array())` and `FromBytes(v.Bytes())` return
`v` with a nil error; for every sequence `b` of exactly eight bytes,
`FromBytes(b)` returns with a nil error an identifier whose `Array()` is `b`. -/
theorem C1_array_fromBytes_inverse (v : Nat) (hv : v < 2 ^ 64)
    (b : List Nat) (hlen : b.length = 8) (hb : ∀ x ∈ b, x < 256) :
    FromBytes (Array v) = (v, none) ∧ FromBytes (Bytes v) = (v, none) ∧
      ∃ w, FromBytes b = (w, none) ∧ w < 2 ^ 64 ∧ Array w = b := by
  refine ⟨fromBytes_array v hv, ?_, fromBytes_inv b hlen hb⟩
  rw [bytes_eq_array]
  exact fromBytes_array v hv

theorem C1_array_fromBytes_inverse_witness :
    FromBytes (Array 48080669904283764) = (48080669904283764, none) ∧
      FromBytes (Bytes 48080669904283764) = (48080669904283764, none) ∧
      ∃ w, FromBytes [0x00, 0xaa, 0xd1, 0x1d, 0x52, 0x35, 0x28, 0x74] = (w, none) ∧
        w < 2 ^ 64 ∧ Array w = [0x00, 0xaa, 0xd1, 0x1d, 0x52, 0x35, 0x28, 0x74] :=
  C1_array_fromBytes_inverse 48080669904283764 (by decide)
    [0x00, 0xaa, 0xd1, 0x1d, 0x52, 0x35, 0x28, 0x74] (by decide) (by decide)

/-- C3: for every byte sequence `b`, `FromBytes(b)` returns an error exactly
when `len(b) != 8`; the error is then `ErrIncomplete` and the identifier `0`.
A shorter input is not padded and a longer one is not truncated: both fail. -/
theorem C3_fromBytes_fails_iff (b : List Nat) :
    ((FromBytes b).2 ≠ none ↔ b.length ≠ 8) ∧
      (b.length ≠ 8 → FromBytes b = (0, some Error.ErrIncomplete)) := by
  by_cases h : b.length = 8
  · simp [FromBytes, Size, h]
  · simp [FromBytes, Size, h]

theorem C3_fromBytes_fails_iff_witness :
    (((FromBytes [0x00, 0xaa, 0xd1, 0x1d, 0x52, 0x35, 0x28]).2 ≠ none ↔
        [0x00, 0xaa, 0xd1, 0x1d, 0x52, 0x35, 0x28].length ≠ 8) ∧
      ([0x00, 0xaa, 0xd1, 0x1d, 0x52, 0x35, 0x28].length ≠ 8 →
        FromBytes [0x00, 0xaa, 0xd1, 0x1d, 0x52, 0x35, 0x28] =
          (0, some Error.ErrIncomplete))) ∧
      [0x00, 0xaa, 0xd1, 0x1d, 0x52, 0x35, 0x28].length ≠ 8 :=
  ⟨C3_fromBytes_fails_iff [0x00, 0xaa, 0xd1, 0x1d, 0x52, 0x35, 0x28], by decide⟩

/-- C8: for every identifier `v` and every index `i` in `0..7`, byte `i` of
`v.Array()` and of `v.Bytes()` is `(v >> (8*(7-i))) mod 256`: byte 0 is the
most significant, byte 7 the least significant. The fixture
`48080669904283764` has the bytes `00 aa d1 1d 52 35 28 74`, and `FromBytes`
of those bytes is `48080669904283764`. -/
theorem C8_array_big_endian (v : Nat) (hv : v < 2 ^ 64) (i : Nat) (hi : i < 8) :
    (Array v).length = 8 ∧ (Bytes v).length = 8 ∧
      (Array v).getD i 0 = (v >>> (8 * (7 - i))) % 256 ∧
      (Bytes v).getD i 0 = (v >>> (8 * (7 - i))) % 256 ∧
      (Array v).getD 0 0 = v / 2 ^ 56 ∧ (Array v).getD 7 0 = v % 2 ^ 8 ∧
      Bytes 48080669904283764 = [0x00, 0xaa, 0xd1, 0x1d, 0x52, 0x35, 0x28, 0x74] ∧
      FromBytes [0x00, 0xaa, 0xd1, 0x1d, 0x52, 0x35, 0x28, 0x74] =
        (48080669904283764, none) := by
  refine ⟨rfl, rfl, ?_, ?_, ?_, ?_, by decide, by decide⟩
  · interval_cases i <;> simp [Array, byte]
  · rw [bytes_eq_array]
    interval_cases i <;> simp [Array, byte]
  · simp only [Array, byte, List.getD_cons_zero, Nat.shiftRight_eq_div_pow]
    omega
  · simp [Array, byte]

theorem C8_array_big_endian_witness :
    (Array 48080669904283764).length = 8 ∧ (Bytes 48080669904283764).length = 8 ∧
      (Array 48080669904283764).getD 1 0 = (48080669904283764 >>> (8 * (7 - 1))) % 256 ∧
      (Bytes 48080669904283764).getD 1 0 = (48080669904283764 >>> (8 * (7 - 1))) % 256 ∧
      (Array 48080669904283764).getD 0 0 = 48080669904283764 / 2 ^ 56 ∧
      (Array 48080669904283764).getD 7 0 = 48080669904283764 % 2 ^ 8 ∧
      Bytes 48080669904283764 = [0x00, 0xaa, 0xd1, 0x1d, 0x52, 0x35, 0x28, 0x74] ∧
      FromBytes [0x00, 0xaa, 0xd1, 0x1d, 0x52, 0x35, 0x28, 0x74] =
        (48080669904283764, none) :=
  C8_array_big_endian 48080669904283764 (by decide) 1 (by decide)

/-! ## Text conversions -/

/-- C2: for every 64-bit identifier `v`, `v.String()` returns a text `s` and
`FromString(s)` returns `v` with a nil error. -/
theorem C2_fromString_string_roundtrip (v : Nat) (hv : v < 2 ^ 64) :
    ∃ s, String v = Run.ret s ∧ FromString s = Run.ret (v, none) :=
  fromString_string v hv

theorem C2_fromString_string_roundtrip_witness :
    (48080669904283764 < 2 ^ 64) ∧
      ∃ s, String 48080669904283764 = Run.ret s ∧
        FromString s = Run.ret (48080669904283764, none) :=
  ⟨by decide, C2_fromString_string_roundtrip 48080669904283764 (by decide)⟩

/-- C4 (the code at the inputs where it departs from the claim): a text
shorter than sixteen characters made of an even number of hexadecimal digits
is accepted, the missing bytes being read as zero, and a text of eighteen
hexadecimal digits stops `FromString` with a run-time panic; neither returns
an error. A text of seventeen hexadecimal digits does return one. -/
theorem C4_fromString_wrong_length_not_rejected :
    FromString (str "") = Run.ret (0, none) ∧
      FromString (str "00aa") = Run.ret (0x00aa000000000000, none) ∧
      FromString (str "00aad11d52352874ff") = Run.panic ∧
      FromString (str "00aad11d52352874f") = Run.ret (0, some Error.ErrLength) := by
  decide

/-- C5: for every text `s` of exactly sixteen bytes, `FromString(s)` returns
without an error if and only if every byte of `s` is a hexadecimal digit
(`0-9`, `a-f`, `A-F`); if some byte is not, it returns an error and the
identifier `0`. -/
theorem C5_fromString_sixteen (s : List Nat) (hlen : s.length = 16) :
    (succeeds (FromString s) ↔ ∀ c ∈ s, isHexDigit c) ∧
      ((∃ c ∈ s, ¬ isHexDigit c) → ∃ e, FromString s = Run.ret (0, some e)) := by
  have h := fromString_total s (by omega)
  refine ⟨?_, ?_⟩
  · rw [h.1]
    exact ⟨fun x => x.2, fun x => ⟨by omega, x⟩⟩
  · rintro ⟨c, hc, hn⟩
    exact h.2 (fun hall => hn (hall.2 c hc))

theorem C5_fromString_sixteen_witness :
    ((succeeds (FromString (str "00AAd11d5235287g")) ↔
        ∀ c ∈ str "00AAd11d5235287g", isHexDigit c) ∧
      ((∃ c ∈ str "00AAd11d5235287g", ¬ isHexDigit c) →
        ∃ e, FromString (str "00AAd11d5235287g") = Run.ret (0, some e))) ∧
      (∃ c ∈ str "00AAd11d5235287g", ¬ isHexDigit c) :=
  ⟨C5_fromString_sixteen (str "00AAd11d5235287g") (by decide), by decide⟩

/-- C6 (the code at the inputs where it departs from the claim): on a text of
eighteen hexadecimal digits the ninth store of `hex.Decode` falls outside the
eight-byte array, so `FromString`, `UnmarshalText` and `Scan` (on a string and
on a byte sequence) stop with a run-time panic instead of returning. -/
theorem C6_decode_panics_on_long_text :
    FromString (str "000000000000000000") = Run.panic ∧
      UnmarshalText 0 (str "000000000000000000") = Run.panic ∧
      Scan 0 (Src.string (str "000000000000000000")) = Run.panic ∧
      Scan 0 (Src.bytes (str "000000000000000000")) = Run.panic := by
  decide

/-- C7: for every identifier `v`, `v.String()` is a text of exactly sixteen
bytes, each a lowercase hexadecimal digit (`0-9`, `a-f`), and for `i` in
`0..7` the bytes `2i` and `2i+1` are the high and low hexadecimal digits of
byte `i` of `v.Array()`. The fixture `48080669904283764` gives
`"00aad11d52352874"`. -/
theorem C7_string_layout (v : Nat) (i : Nat) (hi : i < 8) :
    ∃ s, String v = Run.ret s ∧ s.length = 16 ∧ (∀ c ∈ s, isLowerHexDigit c) ∧
      s.getD (2 * i) 0 = lowerHexDigit ((Array v).getD i 0 / 16) ∧
      s.getD (2 * i + 1) 0 = lowerHexDigit ((Array v).getD i 0 % 16) ∧
      String 48080669904283764 = Run.ret (str "00aad11d52352874") := by
  have hd : ∀ x, isLowerHexDigit (lowerHexDigit (byte x / 16)) := by
    intro x; exact lowerHexDigit_isLower _ (by have := byte_lt x; omega)
  have hm : ∀ x, isLowerHexDigit (lowerHexDigit (byte x % 16)) := by
    intro x; exact lowerHexDigit_isLower _ (by omega)
  refine ⟨_, string_eq v, rfl, ?_, ?_, ?_, by decide⟩
  · intro c hc
    simp only [List.mem_cons, List.mem_singleton, List.mem_nil_iff, or_false] at hc
    rcases hc with h | h | h | h | h | h | h | h | h | h | h | h | h | h | h | h <;>
      rw [h] <;> first | exact hd _ | exact hm _
  · interval_cases i <;> rfl
  · interval_cases i <;> rfl

theorem C7_string_layout_witness :
    ∃ s, String 48080669904283764 = Run.ret s ∧ s.length = 16 ∧
      (∀ c ∈ s, isLowerHexDigit c) ∧
      s.getD (2 * 1) 0 = lowerHexDigit ((Array 48080669904283764).getD 1 0 / 16) ∧
      s.getD (2 * 1 + 1) 0 = lowerHexDigit ((Array 48080669904283764).getD 1 0 % 16) ∧
      String 48080669904283764 = Run.ret (str "00aad11d52352874") :=
  C7_string_layout 48080669904283764 1 (by decide)

/-- C9: for every 64-bit identifier `v`, `v.Time()` is the instant exactly
`floor(v / 2^22)` milliseconds after 2018-01-01T00:00:00.000 UTC, so two
identifiers that differ only in their low 22 bits have the same time; the
fixture `48080669904283764` gives 2018-05-13T16:15:25.000Z. -/
theorem C9_time_of_identifier (v w : Nat) (hv : v < 2 ^ 64) (hw : w < 2 ^ 64) :
    Time v = Date 2018 1 1 0 0 0 0 + ((v / 2 ^ 22 : Nat) : Int) * Millisecond ∧
      (v / 2 ^ 22 = w / 2 ^ 22 → Time v = Time w) ∧
      Time 48080669904283764 = Date 2018 5 13 16 15 25 0 := by
  refine ⟨time_eq v hv, ?_, by decide⟩
  intro h
  rw [time_eq v hv, time_eq w hw, h]

theorem C9_time_of_identifier_witness :
    (Time 48080669904283764 =
        Date 2018 1 1 0 0 0 0 + ((48080669904283764 / 2 ^ 22 : Nat) : Int) * Millisecond ∧
      (48080669904283764 / 2 ^ 22 = 48080669904000000 / 2 ^ 22 →
        Time 48080669904283764 = Time 48080669904000000) ∧
      Time 48080669904283764 = Date 2018 5 13 16 15 25 0) ∧
      48080669904283764 / 2 ^ 22 = 48080669904000000 / 2 ^ 22 :=
  ⟨C9_time_of_identifier 48080669904283764 48080669904000000 (by decide) (by decide),
    by decide⟩

/-- C10: `New` as a function of the clock reading `now` and of the three
random bytes. When `now` lies `m` whole milliseconds after the epoch, with
`m < 2^42`, then whatever the random bytes the identifier `v` that `New` builds
is a 64-bit value with `v >> 22 = m`, and `v.Time()` is `now` truncated to the
millisecond. The third byte enters only through `r[2] & 0x3f`, so no bound on
it is needed. -/
theorem C10_new_time_roundtrip (now : Int) (m r0 r1 r2 : Nat) (hm : m < 2 ^ 42)
    (hlo : epoch + (m : Int) * Millisecond ≤ now)
    (hhi : now < epoch + ((m : Int) + 1) * Millisecond)
    (h0 : r0 < 256) (h1 : r1 < 256) :
    New now r0 r1 r2 < 2 ^ 64 ∧ New now r0 r1 r2 >>> 22 = m ∧
      Time (New now r0 r1 r2) = epoch + (m : Int) * Millisecond ∧
      Time (New now r0 r1 r2) = truncateMs now := by
  unfold Millisecond at *
  have hnew := new_eq now m r0 r1 r2 hm hlo hhi h0 h1
  have hlt : New now r0 r1 r2 < 2 ^ 64 := by rw [hnew]; omega
  have hshift : New now r0 r1 r2 / 2 ^ 22 = m := by rw [hnew]; omega
  have htime : Time (New now r0 r1 r2) = epoch + (m : Int) * 1000000 := by
    rw [time_eq _ hlt, hshift]
  refine ⟨hlt, by rw [Nat.shiftRight_eq_div_pow]; exact hshift, htime, ?_⟩
  rw [htime]
  unfold truncateMs
  rw [epoch_eq] at *
  omega

theorem C10_new_time_roundtrip_witness :
    New (Date 2018 5 13 16 15 25 999999) 0x74 0x28 0xf5 < 2 ^ 64 ∧
      New (Date 2018 5 13 16 15 25 999999) 0x74 0x28 0xf5 >>> 22 = 11463325000 ∧
      Time (New (Date 2018 5 13 16 15 25 999999) 0x74 0x28 0xf5) =
        epoch + ((11463325000 : Nat) : Int) * Millisecond ∧
      Time (New (Date 2018 5 13 16 15 25 999999) 0x74 0x28 0xf5) =
        truncateMs (Date 2018 5 13 16 15 25 999999) :=
  C10_new_time_roundtrip (Date 2018 5 13 16 15 25 999999) 11463325000 0x74 0x28 0xf5
    (by decide) (by decide) (by decide) (by decide) (by decide)

/-! ## Order of the encodings -/

theorem lexLt_cons (x y : Nat) (xs ys : List Nat) :
    lexLt (x :: xs) (y :: ys) = if x < y then true else if y < x then false else lexLt xs ys := by
  rw [lexLt]

theorem lexLt_nil : lexLt [] [] = false := by
  rw [lexLt]

theorem lexLt_of_lt (x y : Nat) (xs ys : List Nat) (h : x < y) :
    lexLt (x :: xs) (y :: ys) = true := by
  rw [lexLt_cons, if_pos h]

theorem lexLt_of_eq (x y : Nat) (xs ys : List Nat) (h : x = y) :
    lexLt (x :: xs) (y :: ys) = lexLt xs ys := by
  rw [lexLt_cons, if_neg (by omega), if_neg (by omega)]

/-- Eight bytes compare, in lexicographic order, as the numbers they write. -/
theorem lexLt_bytes (a0 a1 a2 a3 a4 a5 a6 a7 b0 b1 b2 b3 b4 b5 b6 b7 : Nat)
    (ha1 : a1 < 256) (ha2 : a2 < 256) (ha3 : a3 < 256)
    (ha4 : a4 < 256) (ha5 : a5 < 256) (ha6 : a6 < 256) (ha7 : a7 < 256)
    (hb1 : b1 < 256) (hb2 : b2 < 256) (hb3 : b3 < 256)
    (hb4 : b4 < 256) (hb5 : b5 < 256) (hb6 : b6 < 256) (hb7 : b7 < 256)
    (h : a0 * 2 ^ 56 + a1 * 2 ^ 48 + a2 * 2 ^ 40 + a3 * 2 ^ 32 + a4 * 2 ^ 24 + a5 * 2 ^ 16 +
        a6 * 2 ^ 8 + a7 <
      b0 * 2 ^ 56 + b1 * 2 ^ 48 + b2 * 2 ^ 40 + b3 * 2 ^ 32 + b4 * 2 ^ 24 + b5 * 2 ^ 16 +
        b6 * 2 ^ 8 + b7) :
    lexLt [a0, a1, a2, a3, a4, a5, a6, a7] [b0, b1, b2, b3, b4, b5, b6, b7] = true := by
  rcases Nat.lt_trichotomy a0 b0 with h0 | h0 | h0
  · exact lexLt_of_lt _ _ _ _ h0
  · rw [lexLt_of_eq _ _ _ _ h0]
    rcases Nat.lt_trichotomy a1 b1 with h1 | h1 | h1
    · exact lexLt_of_lt _ _ _ _ h1
    · rw [lexLt_of_eq _ _ _ _ h1]
      rcases Nat.lt_trichotomy a2 b2 with h2 | h2 | h2
      · exact lexLt_of_lt _ _ _ _ h2
      · rw [lexLt_of_eq _ _ _ _ h2]
        rcases Nat.lt_trichotomy a3 b3 with h3 | h3 | h3
        · exact lexLt_of_lt _ _ _ _ h3
        · rw [lexLt_of_eq _ _ _ _ h3]
          rcases Nat.lt_trichotomy a4 b4 with h4 | h4 | h4
          · exact lexLt_of_lt _ _ _ _ h4
          · rw [lexLt_of_eq _ _ _ _ h4]
            rcases Nat.lt_trichotomy a5 b5 with h5 | h5 | h5
            · exact lexLt_of_lt _ _ _ _ h5
            · rw [lexLt_of_eq _ _ _ _ h5]
              rcases Nat.lt_trichotomy a6 b6 with h6 | h6 | h6
              · exact lexLt_of_lt _ _ _ _ h6
              · rw [lexLt_of_eq _ _ _ _ h6]
                rcases Nat.lt_trichotomy a7 b7 with h7 | h7 | h7
                · exact lexLt_of_lt _ _ _ _ h7
                · rw [lexLt_of_eq _ _ _ _ h7]
                  omega
                · omega
              · omega
            · omega
          · omega
        · omega
      · omega
    · omega
  · omega

theorem array_lexLt (a b : Nat) (ha : a < 2 ^ 64) (hb : b < 2 ^ 64) (h : a < b) :
    lexLt (Array a) (Array b) = true := by
  have sa := array_sum a ha
  have sb := array_sum b hb
  unfold Array
  exact lexLt_bytes _ _ _ _ _ _ _ _ _ _ _ _ _ _ _ _
    (byte_lt _) (byte_lt _) (byte_lt _) (byte_lt _) (byte_lt _) (byte_lt _) (byte_lt _)
    (byte_lt _) (byte_lt _) (byte_lt _) (byte_lt _) (byte_lt _) (byte_lt _) (byte_lt _)
    (by rw [sa, sb]; exact h)

theorem lowerHexDigit_lt_iff (n m : Nat) (hn : n < 16) (hm : m < 16) :
    lowerHexDigit n < lowerHexDigit m ↔ n < m := by
  unfold lowerHexDigit
  split_ifs <;> omega

/-- Two bytes compare as their pairs of hexadecimal digits do. -/
theorem lexLt_hexPair (x y : Nat) (s t : List Nat) (hx : x < 256) (hy : y < 256) :
    lexLt (lowerHexDigit (x / 16) :: lowerHexDigit (x % 16) :: s)
        (lowerHexDigit (y / 16) :: lowerHexDigit (y % 16) :: t) =
      lexLt (x :: s) (y :: t) := by
  have h1 := lowerHexDigit_lt_iff (x / 16) (y / 16) (by omega) (by omega)
  have h2 := lowerHexDigit_lt_iff (y / 16) (x / 16) (by omega) (by omega)
  have h3 := lowerHexDigit_lt_iff (x % 16) (y % 16) (by omega) (by omega)
  have h4 := lowerHexDigit_lt_iff (y % 16) (x % 16) (by omega) (by omega)
  rw [lexLt_cons, lexLt_cons, lexLt_cons]
  split_ifs <;> first | rfl | (exfalso; omega)

theorem string_lexLt (a b : Nat) (ha : a < 2 ^ 64) (hb : b < 2 ^ 64) (h : a < b) :
    ∃ s t, String a = Run.ret s ∧ String b = Run.ret t ∧ lexLt s t = true := by
  refine ⟨_, _, string_eq a, string_eq b, ?_⟩
  rw [lexLt_hexPair _ _ _ _ (byte_lt _) (byte_lt _)]
  have hcons : ∀ (x y : Nat) (s t u w : List Nat), lexLt s t = lexLt u w →
      lexLt (x :: s) (y :: t) = lexLt (x :: u) (y :: w) := by
    intro x y s t u w e
    rw [lexLt_cons, lexLt_cons, e]
  have := array_lexLt a b ha hb h
  unfold Array at this
  rw [← this]
  apply hcons; rw [lexLt_hexPair _ _ _ _ (byte_lt _) (byte_lt _)]
  apply hcons; rw [lexLt_hexPair _ _ _ _ (byte_lt _) (byte_lt _)]
  apply hcons; rw [lexLt_hexPair _ _ _ _ (byte_lt _) (byte_lt _)]
  apply hcons; rw [lexLt_hexPair _ _ _ _ (byte_lt _) (byte_lt _)]
  apply hcons; rw [lexLt_hexPair _ _ _ _ (byte_lt _) (byte_lt _)]
  apply hcons; rw [lexLt_hexPair _ _ _ _ (byte_lt _) (byte_lt _)]
  apply hcons; rw [lexLt_hexPair _ _ _ _ (byte_lt _) (byte_lt _)]

/-- The order `lexLt` is asymmetric. -/
theorem lexLt_asymm : ∀ (s t : List Nat), lexLt s t = true → lexLt t s = false
  | [], [], _ => lexLt_nil
  | [], _ :: _, _ => by rw [lexLt]
  | _ :: _, [], h => by rw [lexLt] at h; cases h
  | x :: xs, y :: ys, h => by
    rw [lexLt_cons] at h ⊢
    by_cases h1 : x < y
    · have h2 : ¬ y < x := by omega
      rw [if_neg h2, if_pos h1]
    · rw [if_neg h1] at h
      by_cases h2 : y < x
      · rw [if_pos h2] at h; cases h
      · rw [if_neg h2] at h
        rw [if_neg h2, if_neg h1]
        exact lexLt_asymm xs ys h

/-! ## Scanning -/

/-- Whatever `hex.Decode` returns, the buffer keeps its length. -/
theorem decodeLoop_length : ∀ (src dst : List Nat) (i : Nat) (d : List Nat) (n : Nat)
    (e : Option Error), decodeLoop dst i src = Run.ret (d, n, e) → d.length = dst.length
  | [], dst, i, d, n, e, h => by
    rw [decodeLoop] at h
    cases h; rfl
  | [p], dst, i, d, n, e, h => by
    rw [decodeLoop] at h
    split_ifs at h <;> (cases h; rfl)
  | p :: q :: rest, dst, i, d, n, e, h => by
    rw [decodeLoop] at h
    split_ifs at h
    · cases h; rfl
    · cases h; rfl
    · rw [decodeLoop_length rest _ (i + 1) d n e h, List.length_set]

/-- An error of `FromBytes` comes with the identifier `0`. -/
theorem fromBytes_err_zero (b : List Nat) (w : Nat) (e : Error)
    (h : FromBytes b = (w, some e)) : w = 0 := by
  unfold FromBytes at h
  split_ifs at h
  · cases h; rfl
  · cases h

/-- An error of `FromString` comes with the identifier `0`. -/
theorem fromString_err_zero (s : List Nat) (w : Nat) (e : Error)
    (h : FromString s = Run.ret (w, some e)) : w = 0 := by
  unfold FromString at h
  rcases hd : hexDecode (List.replicate Size 0) s with ⟨b, n, err⟩ | _
  · rw [hd] at h
    cases err with
    | none =>
      simp only [Run.ret.injEq] at h
      exact fromBytes_err_zero b w e h
    | some err =>
      simp only [Run.ret.injEq, Prod.mk.injEq] at h
      exact h.1.symm
  · rw [hd] at h
    cases h

/-- An error of `UnmarshalText` leaves the receiver as it was. -/
theorem unmarshalText_err_keeps (p : Nat) (s : List Nat) (w : Nat) (e : Error)
    (h : UnmarshalText p s = Run.ret (w, some e)) : w = p := by
  unfold UnmarshalText at h
  rcases hd : hexDecode (List.replicate Size 0) s with ⟨b, n, err⟩ | _
  · rw [hd] at h
    cases err with
    | none =>
      simp only [Run.ret.injEq] at h
      have hb : b.length = 8 := by
        rw [decodeLoop_length s _ 0 b n none hd]; simp [Size]
      rw [fromBytes_of_length b hb] at h
      simp at h
    | some err =>
      simp only [Run.ret.injEq, Prod.mk.injEq] at h
      exact h.1.symm
  · rw [hd] at h
    cases h

/-- `UnmarshalText` and `FromString` return the same identifiers. -/
theorem unmarshalText_ok_iff (p : Nat) (s : List Nat) (w : Nat) :
    UnmarshalText p s = Run.ret (w, none) ↔ FromString s = Run.ret (w, none) := by
  unfold UnmarshalText FromString
  rcases hd : hexDecode (List.replicate Size 0) s with ⟨b, n, err⟩ | _
  · cases err with
    | none => simp
    | some err => simp
  · simp

theorem ofInt64_toInt64 (v : Nat) (hv : v < 2 ^ 64) : ofInt64 (toInt64 v) = v := by
  unfold ofInt64 toInt64
  rw [Nat.mod_eq_of_lt hv]
  split_ifs <;> omega

theorem toInt64_ofInt64 (i : Int) (hlo : -2 ^ 63 ≤ i) (hhi : i < 2 ^ 63) :
    toInt64 (ofInt64 i) = i := by
  unfold ofInt64 toInt64
  have h : (i % 2 ^ 64).toNat % 2 ^ 64 = (i % 2 ^ 64).toNat := by omega
  rw [h]
  split_ifs <;> omega

theorem ofInt64_lt (i : Int) : ofInt64 i < 2 ^ 64 := by
  unfold ofInt64
  omega

theorem scan_string (p : Nat) (s : List Nat) : Scan p (Src.string s) = FromString s := rfl

theorem scan_int64 (p : Nat) (i : Int) : Scan p (Src.int64 i) = Run.ret (ofInt64 i, none) := rfl

theorem scan_bytes_eight (p : Nat) (b : List Nat) (h : b.length = 8) :
    Scan p (Src.bytes b) = Run.ret (FromBytes b) := by
  simp only [Scan, Size, h, if_true]

theorem scan_bytes_text (p : Nat) (b : List Nat) (h : b.length ≠ 8) :
    Scan p (Src.bytes b) = UnmarshalText p b := by
  simp only [Scan, Size, h, if_false]

/-! ## Case of the hexadecimal digits -/

theorem lowerHexDigit_reverse (c : Nat) (h : isHexDigit c) :
    lowerHexDigit (reverseHexTable c) = toLowerHex c := by
  unfold isHexDigit at h
  unfold lowerHexDigit reverseHexTable toLowerHex
  split_ifs <;> omega

theorem reverseHexTable_lt (c : Nat) (h : isHexDigit c) : reverseHexTable c < 16 := by
  have := (reverseHexTable_le_iff c).mpr h
  omega

theorem hexByte_lt (p q : Nat) (hp : isHexDigit p) (hq : isHexDigit q) :
    reverseHexTable p * 16 + reverseHexTable q < 256 := by
  have := reverseHexTable_lt p hp
  have := reverseHexTable_lt q hq
  omega

theorem hexByte_hi (p q : Nat) (hp : isHexDigit p) (hq : isHexDigit q) :
    lowerHexDigit ((reverseHexTable p * 16 + reverseHexTable q) / 16) = toLowerHex p := by
  have := reverseHexTable_lt q hq
  have e : (reverseHexTable p * 16 + reverseHexTable q) / 16 = reverseHexTable p := by omega
  rw [e, lowerHexDigit_reverse p hp]

theorem hexByte_lo (p q : Nat) (_hp : isHexDigit p) (hq : isHexDigit q) :
    lowerHexDigit ((reverseHexTable p * 16 + reverseHexTable q) % 16) = toLowerHex q := by
  have := reverseHexTable_lt q hq
  have e : (reverseHexTable p * 16 + reverseHexTable q) % 16 = reverseHexTable q := by omega
  rw [e, lowerHexDigit_reverse q hq]

/-- One turn of the decoding loop on two hexadecimal digits of either case. -/
theorem decodeLoop_hex (dst : List Nat) (i p q : Nat) (rest : List Nat)
    (hp : isHexDigit p) (hq : isHexDigit q) (hi : i < dst.length) :
    decodeLoop dst i (p :: q :: rest) =
      decodeLoop (dst.set i (reverseHexTable p * 16 + reverseHexTable q)) (i + 1) rest := by
  have h1 := reverseHexTable_lt p hp
  have h2 := reverseHexTable_lt q hq
  have e : byte (reverseHexTable p <<< 4) ||| reverseHexTable q =
      reverseHexTable p * 16 + reverseHexTable q := by
    have e1 : byte (reverseHexTable p <<< 4) = reverseHexTable p * 2 ^ 4 := by
      unfold byte; rw [Nat.shiftLeft_eq]; omega
    rw [e1, Nat.or_comm, ← Nat.shiftLeft_eq, or_shl_eq_add _ _ 4 (by omega)]
    omega
  have g1 : ¬ reverseHexTable p > 0x0f := by omega
  have g2 : ¬ reverseHexTable q > 0x0f := by omega
  rw [decodeLoop, if_neg g1, if_neg g2, if_pos hi, e]

/-- The text `String` writes, from the bytes of `Array`. -/
theorem string_of_array (v a0 a1 a2 a3 a4 a5 a6 a7 : Nat)
    (h : Array v = [a0, a1, a2, a3, a4, a5, a6, a7]) :
    String v = Run.ret
      [lowerHexDigit (a0 / 16), lowerHexDigit (a0 % 16),
       lowerHexDigit (a1 / 16), lowerHexDigit (a1 % 16),
       lowerHexDigit (a2 / 16), lowerHexDigit (a2 % 16),
       lowerHexDigit (a3 / 16), lowerHexDigit (a3 % 16),
       lowerHexDigit (a4 / 16), lowerHexDigit (a4 % 16),
       lowerHexDigit (a5 / 16), lowerHexDigit (a5 % 16),
       lowerHexDigit (a6 / 16), lowerHexDigit (a6 % 16),
       lowerHexDigit (a7 / 16), lowerHexDigit (a7 % 16)] := by
  unfold Array at h
  simp only [List.cons.injEq, and_true] at h
  obtain ⟨e0, e1, e2, e3, e4, e5, e6, e7⟩ := h
  rw [string_eq, e0, e1, e2, e3, e4, e5, e6, e7]

/-- Sixteen hexadecimal digits of either case decode to an identifier whose
text is the same digits in lowercase. -/
theorem fromString_hex_digits (c0 c1 c2 c3 c4 c5 c6 c7 c8 c9 c10 c11 c12 c13 c14 c15 : Nat)
    (h0 : isHexDigit c0) (h1 : isHexDigit c1) (h2 : isHexDigit c2) (h3 : isHexDigit c3) (h4 : isHexDigit c4) (h5 : isHexDigit c5) (h6 : isHexDigit c6) (h7 : isHexDigit c7) (h8 : isHexDigit c8) (h9 : isHexDigit c9) (h10 : isHexDigit c10) (h11 : isHexDigit c11) (h12 : isHexDigit c12) (h13 : isHexDigit c13) (h14 : isHexDigit c14) (h15 : isHexDigit c15) :
    ∃ v, v < 2 ^ 64 ∧
      FromString [c0, c1, c2, c3, c4, c5, c6, c7, c8, c9, c10, c11, c12, c13, c14, c15] = Run.ret (v, none) ∧
      String v = Run.ret [toLowerHex c0, toLowerHex c1, toLowerHex c2, toLowerHex c3, toLowerHex c4, toLowerHex c5, toLowerHex c6, toLowerHex c7, toLowerHex c8, toLowerHex c9, toLowerHex c10, toLowerHex c11, toLowerHex c12, toLowerHex c13, toLowerHex c14, toLowerHex c15] := by
  have hdec : hexDecode (List.replicate Size 0) [c0, c1, c2, c3, c4, c5, c6, c7, c8, c9, c10, c11, c12, c13, c14, c15] =
      Run.ret ([(reverseHexTable c0 * 16 + reverseHexTable c1), (reverseHexTable c2 * 16 + reverseHexTable c3), (reverseHexTable c4 * 16 + reverseHexTable c5), (reverseHexTable c6 * 16 + reverseHexTable c7), (reverseHexTable c8 * 16 + reverseHexTable c9), (reverseHexTable c10 * 16 + reverseHexTable c11), (reverseHexTable c12 * 16 + reverseHexTable c13), (reverseHexTable c14 * 16 + reverseHexTable c15)], 8, none) := by
    unfold hexDecode
    rw [decodeLoop_hex _ _ _ _ _ h0 h1 (by simp [Size]),
    decodeLoop_hex _ _ _ _ _ h2 h3 (by simp [Size]),
    decodeLoop_hex _ _ _ _ _ h4 h5 (by simp [Size]),
    decodeLoop_hex _ _ _ _ _ h6 h7 (by simp [Size]),
    decodeLoop_hex _ _ _ _ _ h8 h9 (by simp [Size]),
    decodeLoop_hex _ _ _ _ _ h10 h11 (by simp [Size]),
    decodeLoop_hex _ _ _ _ _ h12 h13 (by simp [Size]),
    decodeLoop_hex _ _ _ _ _ h14 h15 (by simp [Size])]
    rfl
  have hfb := fromBytes_sum (reverseHexTable c0 * 16 + reverseHexTable c1) (reverseHexTable c2 * 16 + reverseHexTable c3) (reverseHexTable c4 * 16 + reverseHexTable c5) (reverseHexTable c6 * 16 + reverseHexTable c7) (reverseHexTable c8 * 16 + reverseHexTable c9) (reverseHexTable c10 * 16 + reverseHexTable c11) (reverseHexTable c12 * 16 + reverseHexTable c13) (reverseHexTable c14 * 16 + reverseHexTable c15)
    (hexByte_lt _ _ h0 h1) (hexByte_lt _ _ h2 h3) (hexByte_lt _ _ h4 h5) (hexByte_lt _ _ h6 h7) (hexByte_lt _ _ h8 h9) (hexByte_lt _ _ h10 h11) (hexByte_lt _ _ h12 h13) (hexByte_lt _ _ h14 h15)
  have hlt := sum_lt (reverseHexTable c0 * 16 + reverseHexTable c1) (reverseHexTable c2 * 16 + reverseHexTable c3) (reverseHexTable c4 * 16 + reverseHexTable c5) (reverseHexTable c6 * 16 + reverseHexTable c7) (reverseHexTable c8 * 16 + reverseHexTable c9) (reverseHexTable c10 * 16 + reverseHexTable c11) (reverseHexTable c12 * 16 + reverseHexTable c13) (reverseHexTable c14 * 16 + reverseHexTable c15)
    (hexByte_lt _ _ h0 h1) (hexByte_lt _ _ h2 h3) (hexByte_lt _ _ h4 h5) (hexByte_lt _ _ h6 h7) (hexByte_lt _ _ h8 h9) (hexByte_lt _ _ h10 h11) (hexByte_lt _ _ h12 h13) (hexByte_lt _ _ h14 h15)
  have harr := array_of_sum (reverseHexTable c0 * 16 + reverseHexTable c1) (reverseHexTable c2 * 16 + reverseHexTable c3) (reverseHexTable c4 * 16 + reverseHexTable c5) (reverseHexTable c6 * 16 + reverseHexTable c7) (reverseHexTable c8 * 16 + reverseHexTable c9) (reverseHexTable c10 * 16 + reverseHexTable c11) (reverseHexTable c12 * 16 + reverseHexTable c13) (reverseHexTable c14 * 16 + reverseHexTable c15)
    (hexByte_lt _ _ h0 h1) (hexByte_lt _ _ h2 h3) (hexByte_lt _ _ h4 h5) (hexByte_lt _ _ h6 h7) (hexByte_lt _ _ h8 h9) (hexByte_lt _ _ h10 h11) (hexByte_lt _ _ h12 h13) (hexByte_lt _ _ h14 h15)
  refine ⟨_, hlt, ?_, ?_⟩
  · unfold FromString
    rw [hdec]
    exact congrArg Run.ret hfb
  · rw [string_of_array _ _ _ _ _ _ _ _ _ harr]
    simp only [hexByte_hi _ _ h0 h1, hexByte_lo _ _ h0 h1, hexByte_hi _ _ h2 h3, hexByte_lo _ _ h2 h3, hexByte_hi _ _ h4 h5, hexByte_lo _ _ h4 h5, hexByte_hi _ _ h6 h7, hexByte_lo _ _ h6 h7, hexByte_hi _ _ h8 h9, hexByte_lo _ _ h8 h9, hexByte_hi _ _ h10 h11, hexByte_lo _ _ h10 h11, hexByte_hi _ _ h12 h13, hexByte_lo _ _ h12 h13, hexByte_hi _ _ h14 h15, hexByte_lo _ _ h14 h15]

/-- A list of length sixteen is sixteen elements. -/
theorem length_sixteen (s : List Nat) (h : s.length = 16) :
    ∃ c0 c1 c2 c3 c4 c5 c6 c7 c8 c9 c10 c11 c12 c13 c14 c15, s = [c0, c1, c2, c3, c4, c5, c6, c7, c8, c9, c10, c11, c12, c13, c14, c15] := by
  match s, h with
  | [c0, c1, c2, c3, c4, c5, c6, c7, c8, c9, c10, c11, c12, c13, c14, c15], _ => exact ⟨c0, c1, c2, c3, c4, c5, c6, c7, c8, c9, c10, c11, c12, c13, c14, c15, rfl⟩

theorem fromString_hex16 (s : List Nat) (hlen : s.length = 16) (hall : ∀ c ∈ s, isHexDigit c) :
    ∃ v, v < 2 ^ 64 ∧ FromString s = Run.ret (v, none) ∧
      String v = Run.ret (s.map toLowerHex) := by
  obtain ⟨c0, c1, c2, c3, c4, c5, c6, c7, c8, c9, c10, c11, c12, c13, c14, c15, rfl⟩ := length_sixteen s hlen
  exact fromString_hex_digits c0 c1 c2 c3 c4 c5 c6 c7 c8 c9 c10 c11 c12 c13 c14 c15
    (hall _ (by simp)) (hall _ (by simp)) (hall _ (by simp)) (hall _ (by simp)) (hall _ (by simp)) (hall _ (by simp)) (hall _ (by simp)) (hall _ (by simp)) (hall _ (by simp)) (hall _ (by simp)) (hall _ (by simp)) (hall _ (by simp)) (hall _ (by simp)) (hall _ (by simp)) (hall _ (by simp)) (hall _ (by simp))

/-- Two identifiers with the same text are equal. -/
theorem string_injective (v w : Nat) (hv : v < 2 ^ 64) (hw : w < 2 ^ 64)
    (h : String v = String w) : v = w := by
  obtain ⟨s, hs, hfs⟩ := fromString_string v hv
  obtain ⟨t, ht, hft⟩ := fromString_string w hw
  rw [hs, ht] at h
  cases h
  rw [hfs] at hft
  cases hft
  rfl

/-! ## Order, scanning and marshalling -/

/-- C11: for every two identifiers `a` and `b` with `(a >> 22) < (b >> 22)`,
whatever their low 22 bits, `a.Array()` sorts strictly before `b.Array()` in
lexicographic byte order and `a.String()` strictly before `b.String()`; the
reverse comparisons are false, so sorting the encodings never puts the later
timestamp first. -/
theorem C11_encodings_ordered_by_time (a b : Nat) (ha : a < 2 ^ 64) (hb : b < 2 ^ 64)
    (h : a >>> 22 < b >>> 22) :
    lexLt (Array a) (Array b) = true ∧ lexLt (Array b) (Array a) = false ∧
      ∃ s t, String a = Run.ret s ∧ String b = Run.ret t ∧
        lexLt s t = true ∧ lexLt t s = false := by
  have hlt : a < b := by
    simp only [Nat.shiftRight_eq_div_pow] at h
    omega
  have h1 := array_lexLt a b ha hb hlt
  obtain ⟨s, t, hs, ht, hst⟩ := string_lexLt a b ha hb hlt
  exact ⟨h1, lexLt_asymm _ _ h1, s, t, hs, ht, hst, lexLt_asymm _ _ hst⟩

theorem C11_encodings_ordered_by_time_witness :
    lexLt (Array 48080669904283764) (Array 48085489047775444) = true ∧
      lexLt (Array 48085489047775444) (Array 48080669904283764) = false ∧
      ∃ s t, String 48080669904283764 = Run.ret s ∧ String 48085489047775444 = Run.ret t ∧
        lexLt s t = true ∧ lexLt t s = false :=
  C11_encodings_ordered_by_time 48080669904283764 48085489047775444 (by decide) (by decide)
    (by decide)

/-- C12: for every sequence `b` of exactly eight bytes and every prior
receiver `p`, `Scan(b)` returns a nil error and sets the receiver to the
big-endian value `FromBytes(b)`; the bytes are not hex-decoded, even when all
eight are ASCII hexadecimal digits. Fixture:
`Scan([00 aa d5 7f 5d 8b 28 d4])` gives `48085489047775444`. -/
theorem C12_scan_eight_bytes (p : Nat) (b : List Nat) (hlen : b.length = 8)
    (hb : ∀ x ∈ b, x < 256) :
    (∃ w, Scan p (Src.bytes b) = Run.ret (w, none) ∧ FromBytes b = (w, none) ∧ Array w = b) ∧
      Scan p (Src.bytes [0x00, 0xaa, 0xd5, 0x7f, 0x5d, 0x8b, 0x28, 0xd4]) =
        Run.ret (48085489047775444, none) ∧
      Scan p (Src.bytes (str "00aad57f")) = Run.ret (0x3030616164353766, none) := by
  obtain ⟨w, hw, _, ha⟩ := fromBytes_inv b hlen hb
  refine ⟨⟨w, ?_, hw, ha⟩, ?_, ?_⟩
  · rw [scan_bytes_eight p b hlen, hw]
  · rw [scan_bytes_eight p _ (by decide)]; decide
  · rw [scan_bytes_eight p _ (by decide)]; decide

theorem C12_scan_eight_bytes_witness :
    (∃ w, Scan 7 (Src.bytes (str "00aad57f")) = Run.ret (w, none) ∧
        FromBytes (str "00aad57f") = (w, none) ∧ Array w = str "00aad57f") ∧
      Scan 7 (Src.bytes [0x00, 0xaa, 0xd5, 0x7f, 0x5d, 0x8b, 0x28, 0xd4]) =
        Run.ret (48085489047775444, none) ∧
      Scan 7 (Src.bytes (str "00aad57f")) = Run.ret (0x3030616164353766, none) :=
  C12_scan_eight_bytes 7 (str "00aad57f") (by decide) (by decide)

/-- C13: `Scan` on text agrees with `FromString`. For every string `s`,
`Scan(s)` is `FromString(s)`; for every byte sequence `b` with `len(b) != 8`,
`Scan(b)` returns the identifier `w` with a nil error exactly when
`FromString` of the text of `b` does. Fixtures: `Scan("00aad5fa5796b942")`
gives `48086017228847426`, and `Scan` of the sixteen bytes of
`"00aad5cdf0b7c886"` gives `48085826524399750`. -/
theorem C13_scan_text_agrees_fromString (p : Nat) (s b : List Nat) (w : Nat)
    (hlen : b.length ≠ 8) :
    Scan p (Src.string s) = FromString s ∧
      (Scan p (Src.bytes b) = Run.ret (w, none) ↔ FromString b = Run.ret (w, none)) ∧
      (succeeds (Scan p (Src.bytes b)) ↔ succeeds (FromString b)) ∧
      Scan p (Src.string (str "00aad5fa5796b942")) = Run.ret (48086017228847426, none) ∧
      Scan p (Src.bytes (str "00aad5cdf0b7c886")) = Run.ret (48085826524399750, none) := by
  have hs : ∀ u, Scan p (Src.bytes b) = Run.ret (u, none) ↔ FromString b = Run.ret (u, none) := by
    intro u
    rw [scan_bytes_text p b hlen]
    exact unmarshalText_ok_iff p b u
  refine ⟨rfl, hs w, ?_, ?_, ?_⟩
  · unfold succeeds
    exact ⟨fun ⟨u, hu⟩ => ⟨u, (hs u).mp hu⟩, fun ⟨u, hu⟩ => ⟨u, (hs u).mpr hu⟩⟩
  · rw [scan_string]; decide
  · rw [scan_bytes_text p _ (by decide), unmarshalText_ok_iff]; decide

theorem C13_scan_text_agrees_fromString_witness :
    Scan 7 (Src.string (str "00AAd5fa5796b942")) = FromString (str "00AAd5fa5796b942") ∧
      (Scan 7 (Src.bytes (str "00aad5cdf0b7c886")) = Run.ret (48085826524399750, none) ↔
        FromString (str "00aad5cdf0b7c886") = Run.ret (48085826524399750, none)) ∧
      (succeeds (Scan 7 (Src.bytes (str "00aad5cdf0b7c886"))) ↔
        succeeds (FromString (str "00aad5cdf0b7c886"))) ∧
      Scan 7 (Src.string (str "00aad5fa5796b942")) = Run.ret (48086017228847426, none) ∧
      Scan 7 (Src.bytes (str "00aad5cdf0b7c886")) = Run.ret (48085826524399750, none) :=
  C13_scan_text_agrees_fromString 7 (str "00AAd5fa5796b942") (str "00aad5cdf0b7c886")
    48085826524399750 (by decide)

/-- C14: `Value` and `Scan` are inverse bit-for-bit reinterpretations. For
every 64-bit identifier `v`, `v.Value()` returns with a nil error the `int64`
of the same bit pattern (`v` when `v < 2^63`, `v - 2^64` otherwise) and
scanning it gives `v`; for every `int64` `i`, `Scan(i)` returns a nil error,
sets the receiver to `i mod 2^64`, and `Value` of the result is `i`. Fixture:
`Scan(int64(8634732875096))` gives `8634732875096`. -/
theorem C14_value_scan_inverse (p v : Nat) (i : Int) (hv : v < 2 ^ 64)
    (hlo : -2 ^ 63 ≤ i) (hhi : i < 2 ^ 63) :
    Value v = ((if v < 2 ^ 63 then (v : Int) else (v : Int) - 2 ^ 64), none) ∧
      -2 ^ 63 ≤ (Value v).1 ∧ (Value v).1 < 2 ^ 63 ∧
      Scan p (Src.int64 (Value v).1) = Run.ret (v, none) ∧
      Scan p (Src.int64 i) = Run.ret ((i % 2 ^ 64).toNat, none) ∧
      Value (i % 2 ^ 64).toNat = (i, none) ∧
      Scan p (Src.int64 8634732875096) = Run.ret (8634732875096, none) := by
  have hval : toInt64 v = if v < 2 ^ 63 then (v : Int) else (v : Int) - 2 ^ 64 := by
    unfold toInt64
    rw [Nat.mod_eq_of_lt hv]
  refine ⟨by simp only [Value, hval], ?_, ?_, ?_, rfl, ?_, ?_⟩
  · simp only [Value, hval]; split_ifs <;> omega
  · simp only [Value, hval]; split_ifs <;> omega
  · simp only [Scan, Value, ofInt64_toInt64 v hv]
  · have h := toInt64_ofInt64 i hlo hhi
    unfold ofInt64 at h
    simp only [Value, h]
  · rw [scan_int64]; decide

theorem C14_value_scan_inverse_witness :
    Value (2 ^ 64 - 1) =
        ((if 2 ^ 64 - 1 < 2 ^ 63 then ((2 ^ 64 - 1 : Nat) : Int)
          else ((2 ^ 64 - 1 : Nat) : Int) - 2 ^ 64), none) ∧
      -2 ^ 63 ≤ (Value (2 ^ 64 - 1)).1 ∧ (Value (2 ^ 64 - 1)).1 < 2 ^ 63 ∧
      Scan 7 (Src.int64 (Value (2 ^ 64 - 1)).1) = Run.ret (2 ^ 64 - 1, none) ∧
      Scan 7 (Src.int64 (-1)) = Run.ret (((-1 : Int) % 2 ^ 64).toNat, none) ∧
      Value ((-1 : Int) % 2 ^ 64).toNat = (-1, none) ∧
      Scan 7 (Src.int64 8634732875096) = Run.ret (8634732875096, none) :=
  C14_value_scan_inverse 7 (2 ^ 64 - 1) (-1) (by decide) (by decide) (by decide)

/-- C15: for every scan input whose type is none of `[]byte`, `string` and
`int64`, `Scan` returns an error that carries the name of the offending type
and leaves the receiver as it was; for a `float64` the text of the error is
`tuid: cannot convert float64 to TUID`. -/
theorem C15_scan_unsupported_type (p : Nat) (typeName : TypeName) :
    Scan p (Src.other typeName) = Run.ret (p, some (Error.cannotConvert typeName)) ∧
      fails (Scan p (Src.other typeName)) ∧ ¬ succeeds (Scan p (Src.other typeName)) ∧
      cannotConvertText "float64" = "tuid: cannot convert float64 to TUID" := by
  refine ⟨rfl, ⟨p, _, rfl⟩, ?_, by decide⟩
  rintro ⟨v, hv⟩
  simp [Scan] at hv

/-- C16: the text-marshal pair round-trips on the sixteen-character form. For
every 64-bit identifier `v`, `v.MarshalText()` returns with a nil error
exactly the sixteen bytes of `v.String()`, and `UnmarshalText` of those bytes
returns a nil error and sets the receiver to `v`, whatever it held before.
The fixture `48080669904283764` marshals to `00aad11d52352874`, and that text
unmarshals to `48080669904283764`. -/
theorem C16_marshalText_roundtrip (p v : Nat) (hv : v < 2 ^ 64) :
    ∃ s, String v = Run.ret s ∧ s.length = 16 ∧ MarshalText v = Run.ret (s, none) ∧
      UnmarshalText p s = Run.ret (v, none) ∧
      MarshalText 48080669904283764 = Run.ret (str "00aad11d52352874", none) ∧
      UnmarshalText p (str "00aad11d52352874") = Run.ret (48080669904283764, none) := by
  obtain ⟨s, hs, hfs⟩ := fromString_string v hv
  have hs16 := string_eq v
  rw [hs] at hs16
  have hlen : s.length = 16 := by
    cases hs16; rfl
  refine ⟨s, hs, hlen, ?_, (unmarshalText_ok_iff p s v).mpr hfs, by decide, ?_⟩
  · have hm : MarshalText v = Run.ret (s, none) := by
      have : String v = Run.ret s → MarshalText v = Run.ret (s, none) := by
        unfold String EncodeToString MarshalText
        have e : (Array v).length * 2 = Size * 2 := rfl
        rw [e]
        rcases hexEncode (List.replicate (Size * 2) 0) (Array v) with ⟨d, n⟩ | _
        · intro h; cases h; rfl
        · intro h; cases h
      exact this hs
    exact hm
  · rw [unmarshalText_ok_iff]; decide

theorem C16_marshalText_roundtrip_witness :
    ∃ s, String 48080669904283764 = Run.ret s ∧ s.length = 16 ∧
      MarshalText 48080669904283764 = Run.ret (s, none) ∧
      UnmarshalText 7 s = Run.ret (48080669904283764, none) ∧
      MarshalText 48080669904283764 = Run.ret (str "00aad11d52352874", none) ∧
      UnmarshalText 7 (str "00aad11d52352874") = Run.ret (48080669904283764, none) :=
  C16_marshalText_roundtrip 7 48080669904283764 (by decide)

/-- C17: `New` as a function of the millisecond count `m` (`m < 2^42`) and of
the three random bytes. The identifier is
`m * 2^22 + (r2 mod 64) * 2^16 + r1 * 2^8 + r0`: `r0` fills bits 7-0, `r1`
bits 15-8, the low six bits of `r2` bits 21-16; the top two bits of `r2` do
not change the result, and bits 63-22 are `m` whatever the random bytes. The
third byte enters only through `r[2] & 0x3f`, so no bound on it is needed. -/
theorem C17_new_bit_layout (now : Int) (m r0 r1 r2 : Nat) (hm : m < 2 ^ 42)
    (hlo : epoch + (m : Int) * Millisecond ≤ now)
    (hhi : now < epoch + ((m : Int) + 1) * Millisecond)
    (h0 : r0 < 256) (h1 : r1 < 256) :
    New now r0 r1 r2 = m * 2 ^ 22 + (r2 % 64) * 2 ^ 16 + r1 * 2 ^ 8 + r0 ∧
      New now r0 r1 r2 % 2 ^ 8 = r0 ∧
      New now r0 r1 r2 / 2 ^ 8 % 2 ^ 8 = r1 ∧
      New now r0 r1 r2 / 2 ^ 16 % 2 ^ 6 = r2 % 64 ∧
      New now r0 r1 r2 / 2 ^ 22 = m ∧
      New now r0 r1 (r2 % 64) = New now r0 r1 r2 ∧
      New now 0 0 0 = m * 2 ^ 22 := by
  unfold Millisecond at *
  have hnew := new_eq now m r0 r1 r2 hm hlo hhi h0 h1
  have hnew' := new_eq now m r0 r1 (r2 % 64) hm hlo hhi h0 h1
  have hzero := new_eq now m 0 0 0 hm hlo hhi (by omega) (by omega)
  refine ⟨hnew, ?_, ?_, ?_, ?_, ?_, ?_⟩
  · rw [hnew]; omega
  · rw [hnew]; omega
  · rw [hnew]; omega
  · rw [hnew]; omega
  · rw [hnew, hnew']; omega
  · rw [hzero]; omega

theorem C17_new_bit_layout_witness :
    New (Date 2018 5 13 16 15 25 999999) 0x74 0x28 0xf5 =
        11463325000 * 2 ^ 22 + (0xf5 % 64) * 2 ^ 16 + 0x28 * 2 ^ 8 + 0x74 ∧
      New (Date 2018 5 13 16 15 25 999999) 0x74 0x28 0xf5 % 2 ^ 8 = 0x74 ∧
      New (Date 2018 5 13 16 15 25 999999) 0x74 0x28 0xf5 / 2 ^ 8 % 2 ^ 8 = 0x28 ∧
      New (Date 2018 5 13 16 15 25 999999) 0x74 0x28 0xf5 / 2 ^ 16 % 2 ^ 6 = 0xf5 % 64 ∧
      New (Date 2018 5 13 16 15 25 999999) 0x74 0x28 0xf5 / 2 ^ 22 = 11463325000 ∧
      New (Date 2018 5 13 16 15 25 999999) 0x74 0x28 (0xf5 % 64) =
        New (Date 2018 5 13 16 15 25 999999) 0x74 0x28 0xf5 ∧
      New (Date 2018 5 13 16 15 25 999999) 0 0 0 = 11463325000 * 2 ^ 22 :=
  C17_new_bit_layout (Date 2018 5 13 16 15 25 999999) 11463325000 0x74 0x28 0xf5
    (by decide) (by decide) (by decide) (by decide) (by decide)

/-- C18: `Time` never overflows. For every 64-bit identifier `v` the duration
`(v >> 22) * 1,000,000` that `Time` computes is below `2^63`, so the `int64`
product does not wrap; hence for all identifiers `v` and `w`,
`(v >> 22) < (w >> 22)` gives `v.Time()` strictly before `w.Time()` and
`(v >> 22) = (w >> 22)` gives equal times. -/
theorem C18_time_no_overflow (v w : Nat) (hv : v < 2 ^ 64) (hw : w < 2 ^ 64) :
    0 ≤ toInt64 (v >>> (64 - 42)) * Millisecond ∧
      toInt64 (v >>> (64 - 42)) * Millisecond < 2 ^ 63 ∧
      wrapInt64 (toInt64 (v >>> (64 - 42)) * Millisecond) =
        ((v >>> 22 : Nat) : Int) * 1000000 ∧
      (v >>> 22 < w >>> 22 → Time v < Time w) ∧
      (v >>> 22 = w >>> 22 → Time v = Time w) := by
  have tv := time_eq v hv
  have tw := time_eq w hw
  have e : (64 - 42 : Nat) = 22 := rfl
  rw [e]
  simp only [Nat.shiftRight_eq_div_pow] at *
  have hx : v / 2 ^ 22 < 2 ^ 42 := by omega
  have hy : w / 2 ^ 22 < 2 ^ 42 := by omega
  have hto : toInt64 (v / 2 ^ 22) = ((v / 2 ^ 22 : Nat) : Int) := by
    unfold toInt64
    rw [Nat.mod_eq_of_lt (by omega), if_pos (by omega)]
  rw [hto, tv, tw]
  unfold Millisecond wrapInt64
  generalize v / 2 ^ 22 = x at *
  generalize w / 2 ^ 22 = y at *
  refine ⟨by omega, by omega, by omega, ?_, ?_⟩
  · intro h; omega
  · intro h; rw [h]

theorem C18_time_no_overflow_witness :
    (0 ≤ toInt64 ((2 ^ 64 - 1) >>> (64 - 42)) * Millisecond ∧
      toInt64 ((2 ^ 64 - 1) >>> (64 - 42)) * Millisecond < 2 ^ 63 ∧
      wrapInt64 (toInt64 ((2 ^ 64 - 1) >>> (64 - 42)) * Millisecond) =
        (((2 ^ 64 - 1) >>> 22 : Nat) : Int) * 1000000 ∧
      ((2 ^ 64 - 1) >>> 22 < 0 >>> 22 → Time (2 ^ 64 - 1) < Time 0) ∧
      ((2 ^ 64 - 1) >>> 22 = 0 >>> 22 → Time (2 ^ 64 - 1) = Time 0)) ∧
      Time 0 < Time (2 ^ 64 - 1) :=
  ⟨C18_time_no_overflow (2 ^ 64 - 1) 0 (by decide) (by decide), by decide⟩

/-- C19: `FromString` ignores the case of the digits and `String` writes
lowercase. For every text `s` of sixteen hexadecimal digits of either case,
`FromString(s)` returns some `v` with a nil error and `v.String()` is `s` with
every `A-F` replaced by the matching `a-f`; two such texts decode to the same
identifier exactly when they are equal ignoring case. -/
theorem C19_fromString_case_insensitive (s t : List Nat)
    (hs : s.length = 16) (ht : t.length = 16)
    (hsd : ∀ c ∈ s, isHexDigit c) (htd : ∀ c ∈ t, isHexDigit c) :
    (∃ v, v < 2 ^ 64 ∧ FromString s = Run.ret (v, none) ∧
        String v = Run.ret (s.map toLowerHex)) ∧
      (FromString s = FromString t ↔ s.map toLowerHex = t.map toLowerHex) := by
  obtain ⟨v, hv, hfs, hvs⟩ := fromString_hex16 s hs hsd
  obtain ⟨w, hw, hft, hwt⟩ := fromString_hex16 t ht htd
  refine ⟨⟨v, hv, hfs, hvs⟩, ?_⟩
  rw [hfs, hft]
  constructor
  · intro h
    have hvw : v = w := by
      simp only [Run.ret.injEq, Prod.mk.injEq, and_true] at h
      exact h
    rw [← hvw, hvs] at hwt
    exact Run.ret.inj hwt
  · intro h
    rw [h, ← hwt] at hvs
    rw [string_injective v w hv hw hvs]

theorem C19_fromString_case_insensitive_witness :
    (∃ v, v < 2 ^ 64 ∧ FromString (str "00AAD11D52352874") = Run.ret (v, none) ∧
        String v = Run.ret ((str "00AAD11D52352874").map toLowerHex)) ∧
      (FromString (str "00AAD11D52352874") = FromString (str "00aad11d52352874") ↔
        (str "00AAD11D52352874").map toLowerHex = (str "00aad11d52352874").map toLowerHex) :=
  C19_fromString_case_insensitive (str "00AAD11D52352874") (str "00aad11d52352874")
    (by decide) (by decide) (by decide) (by decide)

/-- C20: the receiver after a failed `Scan`. For every prior receiver `p` and
every input on which `Scan` returns an error, the receiver afterwards is still
`p` when the input is a byte sequence or a value of an unsupported type, and
is `0` when the input is a string; an `int64` input never fails. So the
receiver never holds a partly decoded value. -/
theorem C20_receiver_after_failed_scan (p : Nat) (src : Src) (w : Nat) (e : Error)
    (h : Scan p src = Run.ret (w, some e)) :
    (∀ b, src = Src.bytes b → w = p) ∧
      (∀ typeName, src = Src.other typeName → w = p) ∧
      (∀ s, src = Src.string s → w = 0) ∧
      (∀ i, src ≠ Src.int64 i) := by
  refine ⟨?_, ?_, ?_, ?_⟩
  · rintro b rfl
    by_cases hlen : b.length = 8
    · rw [scan_bytes_eight p b hlen, fromBytes_of_length b hlen] at h
      simp at h
    · rw [scan_bytes_text p b hlen] at h
      exact unmarshalText_err_keeps p b w e h
  · rintro typeName rfl
    simp only [Scan, Run.ret.injEq, Prod.mk.injEq] at h
    exact h.1.symm
  · rintro s rfl
    rw [scan_string] at h
    exact fromString_err_zero s w e h
  · rintro i rfl
    rw [scan_int64] at h
    simp at h

theorem C20_receiver_after_failed_scan_witness :
    Scan 7 (Src.bytes (str "00aazz")) = Run.ret (7, some (Error.InvalidByteError 122)) ∧
      ((∀ b, Src.bytes (str "00aazz") = Src.bytes b → 7 = 7) ∧
      (∀ typeName, Src.bytes (str "00aazz") = Src.other typeName → 7 = 7) ∧
      (∀ s, Src.bytes (str "00aazz") = Src.string s → 7 = 0) ∧
      (∀ i, Src.bytes (str "00aazz") ≠ Src.int64 i)) :=
  ⟨by decide, C20_receiver_after_failed_scan 7 (Src.bytes (str "00aazz")) 7
    (Error.InvalidByteError 122) (by decide)⟩

end Tuid
